import Mathlib

/-!
envreader: a verification development

Shallow embedding of `reader.go` (package `envreader`) together with the parts of the Go
standard library it calls (`os.Getenv`, `strings.TrimSpace`, `strings.ToLower`,
`strings.Replace`, `strings.Split`, `strconv.ParseInt`, `reflect`).

Modelling conventions
* A Go `string` is a Lean `String`, i.e. a sequence of Unicode scalar values: the model covers
  the strings that are valid UTF-8.  All bytes the code tests for (`' '`, `','`, `'+'`, `'-'`,
  digits) are ASCII, so scanning runes and scanning bytes agree on such strings.
* `uint64` / `int64` arithmetic is carried out on `Nat` / `Int` with explicit `% 2^64`.
* `strconv.ParseFloat` and the floating point values themselves are parameters (`FloatLib`).
* A struct is the list of its fields in declaration order, each with its current value; every
  field is taken to be exported (settable), as `reflect` requires for the setters used.
* The platform is 64-bit (`strconv.IntSize = 64`, `int` has 64 bits).
-/

namespace Envreader

/-! ## package unicode / strings -/

/-- Go `unicode.IsSpace`: the Latin-1 spaces and the code points with property White_Space. -/
def isSpace (c : Char) : Bool :=
  let n := c.toNat
  n == 0x09 || n == 0x0A || n == 0x0B || n == 0x0C || n == 0x0D || n == 0x20 ||
  n == 0x85 || n == 0xA0 || n == 0x1680 || (0x2000 ≤ n && n ≤ 0x200A) ||
  n == 0x2028 || n == 0x2029 || n == 0x202F || n == 0x205F || n == 0x3000

/-- Removal of the trailing run of white space of a rune sequence (right half of
`strings.TrimSpace`). -/
def trimRight : List Char → List Char
  | [] => []
  | c :: cs =>
    match trimRight cs with
    | [] => if isSpace c then [] else [c]
    | r :: rs => c :: r :: rs

/-- Go `strings.TrimSpace`: the string without leading and trailing white space. -/
def TrimSpace (s : String) : String :=
  ⟨trimRight (s.data.dropWhile isSpace)⟩

/-- Go `len(s)` is a byte count; it is only ever compared with zero here, and a string has zero
bytes exactly when it has no characters. -/
def len (s : String) : Nat := s.data.length

/-- Go `unicode.ToLower` on one rune.  `A`..`Z` map to `a`..`z`; U+0130 and U+212A are the only
non-ASCII runes whose lower case is ASCII (`i` and `k`).  Every other non-ASCII rune has a
non-ASCII lower case and is left as it is: the result is only compared with an ASCII literal. -/
def toLowerRune (c : Char) : Char :=
  if 0x41 ≤ c.toNat ∧ c.toNat ≤ 0x5A then Char.ofNat (c.toNat + 32)
  else if c.toNat = 0x130 then 'i'
  else if c.toNat = 0x212A then 'k'
  else c

/-- Go `strings.ToLower`. -/
def ToLower (s : String) : String := ⟨s.data.map toLowerRune⟩

/-- Go `strings.Replace(s, old, new, -1)` for a one-character `old`: every occurrence of `old`
is replaced by `new`. -/
def ReplaceAll (s : String) (old : Char) (new : String) : String :=
  ⟨s.data.flatMap fun c => if c = old then new.data else [c]⟩

/-- Splitting of a rune sequence at every occurrence of `sep`; always at least one segment. -/
def splitRunes (sep : Char) : List Char → List (List Char)
  | [] => [[]]
  | c :: cs =>
    if c = sep then [] :: splitRunes sep cs
    else
      match splitRunes sep cs with
      | [] => [[c]]
      | seg :: segs => (c :: seg) :: segs

/-- Go `strings.Split(s, sep)` for a one-character `sep`. -/
def Split (s : String) (sep : Char) : List String :=
  (splitRunes sep s.data).map String.mk

/-! ## package os -/

/-- The process environment: `KEY=VALUE` entries, the first mention of a key wins. -/
abbrev Env := List (String × String)

/-- Go `syscall.Getenv`: the empty key is never found. -/
def LookupEnv (env : Env) (key : String) : Option String :=
  if key.data.length = 0 then none else (env.find? fun kv => kv.1 = key).map Prod.snd

/-- Go `os.Getenv`: the value of the variable, empty when it is not present. -/
def Getenv (env : Env) (key : String) : String :=
  (LookupEnv env key).getD ""

deriving instance DecidableEq for Except

/-! ## package strconv -/

/-- The errors a `strconv.NumError` wraps here: the sentinels `ErrSyntax` and `ErrRange`, and
the "invalid bit size" error of `bitSizeError`. -/
inductive ErrKind
  | ErrSyntax
  | ErrRange
  | ErrBitSize (bitSize : Nat)
  deriving DecidableEq, Repr

/-- Go `strconv.NumError`. -/
structure NumError where
  Func : String
  Num : String
  Err : ErrKind
  deriving DecidableEq, Repr

def syntaxError (fn str : String) : NumError := ⟨fn, str, .ErrSyntax⟩

def rangeError (fn str : String) : NumError := ⟨fn, str, .ErrRange⟩

def bitSizeError (fn str : String) (bitSize : Nat) : NumError := ⟨fn, str, .ErrBitSize bitSize⟩

/-- The constant `strconv.IntSize` on a 64-bit platform. -/
def IntSize : Nat := 64

def maxUint64 : Nat := 2 ^ 64 - 1

/-- Go `lower(c) = c | ('x' - 'X')` of `strconv`. -/
def lower (c : Nat) : Nat := c ||| 0x20

/-- The digit loop of `strconv.ParseUint` for an explicit valid base (no underscores, no base
prefix): `n` is the `uint64` accumulator; the result is the pair `(value, err)` returned.  The
loop of the source runs over bytes; a rune from U+0080 on is encoded with bytes from 0x80 on,
none of which is a digit or a letter, so its first byte ends the loop with a syntax error. -/
def parseUintLoop (s0 : String) (base cutoff maxVal : Nat) :
    List Char → Nat → Nat × Option NumError
  | [], n => (n, none)
  | c :: cs, n =>
    let b := c.toNat
    let digit : Option Nat :=
      if 0x30 ≤ b ∧ b ≤ 0x39 then some (b - 0x30)
      else if b < 0x80 ∧ 0x61 ≤ lower b ∧ lower b ≤ 0x7A then some (lower b - 0x61 + 10)
      else none
    match digit with
    | none => (0, some (syntaxError "ParseUint" s0))
    | some d =>
      if d ≥ base then (0, some (syntaxError "ParseUint" s0))
      else if n ≥ cutoff then (maxVal, some (rangeError "ParseUint" s0))
      else
        let n' := (n * base) % 2 ^ 64
        let n1 := (n' + d) % 2 ^ 64
        if n1 < n' ∨ n1 > maxVal then (maxVal, some (rangeError "ParseUint" s0))
        else parseUintLoop s0 base cutoff maxVal cs n1

/-- Go `strconv.ParseUint(s, base, bitSize)` for an explicit base `2 ≤ base ≤ 36`; the result is
the pair `(value, err)` returned. -/
def ParseUint (s : String) (base bitSize : Nat) : Nat × Option NumError :=
  if s.data.length = 0 then (0, some (syntaxError "ParseUint" s))
  else
    let bitSize := if bitSize = 0 then IntSize else bitSize
    if bitSize > 64 then (0, some (bitSizeError "ParseUint" s bitSize))
    else
      let cutoff := maxUint64 / base + 1
      let maxVal := (2 ^ bitSize % 2 ^ 64 + 2 ^ 64 - 1) % 2 ^ 64
      parseUintLoop s base cutoff maxVal s.data 0

/-- Go conversion `int64(u)` of a `uint64`. -/
def int64 (u : Nat) : Int :=
  if u % 2 ^ 64 < 2 ^ 63 then ((u % 2 ^ 64 : Nat) : Int) else ((u % 2 ^ 64 : Nat) : Int) - 2 ^ 64

/-- Go negation `-n` on `int64` (wraps at the minimum). -/
def negInt64 (n : Int) : Int :=
  int64 ((-n) % 2 ^ 64).toNat

/-- The range check that ends `strconv.ParseInt`, on the unsigned value `un`. -/
def parseIntRange (s0 : String) (neg : Bool) (un bitSize : Nat) : Except NumError Int :=
  let bitSize := if bitSize = 0 then IntSize else bitSize
  let cutoff := (2 ^ (bitSize - 1)) % 2 ^ 64
  if neg = false ∧ un ≥ cutoff then .error (rangeError "ParseInt" s0)
  else if neg = true ∧ un > cutoff then .error (rangeError "ParseInt" s0)
  else
    let n := int64 un
    .ok (if neg = true then negInt64 n else n)

/-- Go `strconv.ParseInt(s, base, bitSize)`, returning either the value or the error (the
clamped value that accompanies a range error is never read by the callers). -/
def ParseInt (s : String) (base bitSize : Nat) : Except NumError Int :=
  match s.data with
  | [] => .error (syntaxError "ParseInt" s)
  | c :: cs =>
    let neg : Bool := decide (c = '-')
    let rest : String := if c = '+' ∨ c = '-' then ⟨cs⟩ else ⟨c :: cs⟩
    let r := ParseUint rest base bitSize
    match r.2 with
    | some err =>
      if err.Err ≠ .ErrRange then .error { err with Func := "ParseInt", Num := s }
      else parseIntRange s neg r.1 bitSize
    | none => parseIntRange s neg r.1 bitSize

/-- The floating point side of the platform, taken as a parameter: the carrier `F` of float
values, its zero, `strconv.ParseFloat(s, bitSize)` (value or error) and the conversion
`float32(x)` that `reflect.Value.SetFloat` applies to a 32-bit field. -/
structure FloatLib (F : Type) where
  zero : F
  ParseFloat : String → Nat → Except NumError F
  toFloat32 : F → F

/-! ## package reflect -/

/-- Go `reflect.Kind` (without `Invalid`). -/
inductive Kind
  | Bool | Int | Int8 | Int16 | Int32 | Int64
  | Uint | Uint8 | Uint16 | Uint32 | Uint64 | Uintptr
  | Float32 | Float64 | Complex64 | Complex128
  | Array | Chan | Func | Interface | Map | Pointer | Slice | String | Struct | UnsafePointer
  deriving DecidableEq, Repr

/-- The kinds of the composite types whose structure the reader never inspects. -/
inductive CompositeKind
  | Array | Chan | Func | Interface | Map | Pointer | Struct | UnsafePointer
  deriving DecidableEq, Repr

/-- Go types as `reflect.Type` distinguishes them: the predeclared basic types, slice types
`[]T`, defined types `type name underlying`, and the remaining composite types. -/
inductive GoType
  | bool | int | int8 | int16 | int32 | int64
  | uint | uint8 | uint16 | uint32 | uint64 | uintptr
  | float32 | float64 | complex64 | complex128 | string
  | slice (elem : GoType)
  | named (name : String) (underlying : GoType)
  | composite (k : CompositeKind) (descr : String)
  deriving DecidableEq, Repr

namespace GoType

/-- Go `reflect.Type.Kind`. -/
def Kind : GoType → Envreader.Kind
  | bool => .Bool | int => .Int | int8 => .Int8 | int16 => .Int16 | int32 => .Int32
  | int64 => .Int64 | uint => .Uint | uint8 => .Uint8 | uint16 => .Uint16 | uint32 => .Uint32
  | uint64 => .Uint64 | uintptr => .Uintptr | float32 => .Float32 | float64 => .Float64
  | complex64 => .Complex64 | complex128 => .Complex128 | string => .String
  | slice _ => .Slice
  | named _ u => u.Kind
  | composite .Array _ => .Array | composite .Chan _ => .Chan | composite .Func _ => .Func
  | composite .Interface _ => .Interface | composite .Map _ => .Map
  | composite .Pointer _ => .Pointer | composite .Struct _ => .Struct
  | composite .UnsafePointer _ => .UnsafePointer

/-- Go `reflect.Type.Bits` for the sized kinds (it is only called on those). -/
def Bits : GoType → Nat
  | int => IntSize | int8 => 8 | int16 => 16 | int32 => 32 | int64 => 64
  | uint => IntSize | uint8 => 8 | uint16 => 16 | uint32 => 32 | uint64 => 64 | uintptr => 64
  | float32 => 32 | float64 => 64 | complex64 => 64 | complex128 => 128
  | named _ u => u.Bits
  | _ => 0

/-- Go `reflect.Type.Elem` of a slice type. -/
def Elem : GoType → GoType
  | slice e => e
  | named _ u => u.Elem
  | t => t

end GoType

/-- Go values as far as the reader can produce or overwrite them; `zero t` is the zero value of
a type whose values are not interpreted further (nil slice, nil pointer, empty struct ...) and
`other` any other value of such a type. -/
inductive Value (F : Type)
  | bool (b : Bool)
  | int (i : Int)
  | uint (u : Nat)
  | float (f : F)
  | string (s : String)
  | slice (elems : List (Value F))
  | zero (t : GoType)
  | other (descr : String)

mutual
/-- Decision procedure for equality of values. -/
def Value.decEq {F : Type} [DecidableEq F] : (a b : Value F) → Decidable (a = b)
  | .bool x, .bool y =>
    if h : x = y then isTrue (by rw [h]) else isFalse (by intro e; cases e; exact h rfl)
  | .int x, .int y =>
    if h : x = y then isTrue (by rw [h]) else isFalse (by intro e; cases e; exact h rfl)
  | .uint x, .uint y =>
    if h : x = y then isTrue (by rw [h]) else isFalse (by intro e; cases e; exact h rfl)
  | .float x, .float y =>
    if h : x = y then isTrue (by rw [h]) else isFalse (by intro e; cases e; exact h rfl)
  | .string x, .string y =>
    if h : x = y then isTrue (by rw [h]) else isFalse (by intro e; cases e; exact h rfl)
  | .slice xs, .slice ys =>
    match Value.decEqList xs ys with
    | isTrue h => isTrue (by rw [h])
    | isFalse h => isFalse (by intro e; cases e; exact h rfl)
  | .zero x, .zero y =>
    if h : x = y then isTrue (by rw [h]) else isFalse (by intro e; cases e; exact h rfl)
  | .other x, .other y =>
    if h : x = y then isTrue (by rw [h]) else isFalse (by intro e; cases e; exact h rfl)
  | .bool _, .int _ | .bool _, .uint _ | .bool _, .float _ | .bool _, .string _ | .bool _, .slice _ | .bool _, .zero _ | .bool _, .other _ =>
    isFalse (by intro e; cases e)
  | .int _, .bool _ | .int _, .uint _ | .int _, .float _ | .int _, .string _ | .int _, .slice _ | .int _, .zero _ | .int _, .other _ =>
    isFalse (by intro e; cases e)
  | .uint _, .bool _ | .uint _, .int _ | .uint _, .float _ | .uint _, .string _ | .uint _, .slice _ | .uint _, .zero _ | .uint _, .other _ =>
    isFalse (by intro e; cases e)
  | .float _, .bool _ | .float _, .int _ | .float _, .uint _ | .float _, .string _ | .float _, .slice _ | .float _, .zero _ | .float _, .other _ =>
    isFalse (by intro e; cases e)
  | .string _, .bool _ | .string _, .int _ | .string _, .uint _ | .string _, .float _ | .string _, .slice _ | .string _, .zero _ | .string _, .other _ =>
    isFalse (by intro e; cases e)
  | .slice _, .bool _ | .slice _, .int _ | .slice _, .uint _ | .slice _, .float _ | .slice _, .string _ | .slice _, .zero _ | .slice _, .other _ =>
    isFalse (by intro e; cases e)
  | .zero _, .bool _ | .zero _, .int _ | .zero _, .uint _ | .zero _, .float _ | .zero _, .string _ | .zero _, .slice _ | .zero _, .other _ =>
    isFalse (by intro e; cases e)
  | .other _, .bool _ | .other _, .int _ | .other _, .uint _ | .other _, .float _ | .other _, .string _ | .other _, .slice _ | .other _, .zero _ =>
    isFalse (by intro e; cases e)
/-- Decision procedure for equality of lists of values. -/
def Value.decEqList {F : Type} [DecidableEq F] : (a b : List (Value F)) → Decidable (a = b)
  | [], [] => isTrue rfl
  | [], _ :: _ => isFalse (by intro e; cases e)
  | _ :: _, [] => isFalse (by intro e; cases e)
  | x :: xs, y :: ys =>
    match Value.decEq x y, Value.decEqList xs ys with
    | isTrue h1, isTrue h2 => isTrue (by rw [h1, h2])
    | isFalse h1, _ => isFalse (by intro e; cases e; exact h1 rfl)
    | _, isFalse h2 => isFalse (by intro e; cases e; exact h2 rfl)
end

instance {F : Type} [DecidableEq F] : DecidableEq (Value F) := Value.decEq

/-- Go `reflect.Zero(t)`. -/
def zeroValue {F : Type} (lib : FloatLib F) : GoType → Value F
  | .bool => .bool false
  | .int => .int 0 | .int8 => .int 0 | .int16 => .int 0 | .int32 => .int 0 | .int64 => .int 0
  | .uint => .uint 0 | .uint8 => .uint 0 | .uint16 => .uint 0 | .uint32 => .uint 0
  | .uint64 => .uint 0 | .uintptr => .uint 0
  | .float32 => .float lib.zero | .float64 => .float lib.zero
  | .string => .string ""
  | .named _ u => zeroValue lib u
  | t => .zero t

/-- Go `reflect.MakeSlice(t, n, n)`: `n` zero values of the element type. -/
def MakeSlice {F : Type} (lib : FloatLib F) (t : GoType) (n : Nat) : List (Value F) :=
  List.replicate n (zeroValue lib t.Elem)

/-- Go conversion of an `int64` to the signed integer type of `bits` bits (two's complement
truncation), as `reflect.Value.SetInt` stores it. -/
def truncInt (bits : Nat) (x : Int) : Int :=
  let m := x % 2 ^ bits
  if m < 2 ^ (bits - 1) then m else m - 2 ^ bits

/-- Go `reflect.Value.SetInt` on a field of the given integer type. -/
def SetInt {F : Type} (t : GoType) (x : Int) : Value F := .int (truncInt t.Bits x)

/-- Go `reflect.Value.SetFloat` on a field of the given float type. -/
def SetFloat {F : Type} (lib : FloatLib F) (t : GoType) (x : F) : Value F :=
  if t.Kind = .Float32 then .float (lib.toFloat32 x) else .float x

/-- Go `reflect.StructTag`, in parsed form: the `key:"value"` pairs in the order written, the
values already unquoted. -/
abbrev StructTag := List (String × String)

/-- Go `reflect.StructTag.Get`: the value of the first pair named `key`, else the empty string
(a key is never empty in a tag). -/
def StructTag.Get (tag : StructTag) (key : String) : String :=
  if key.data.length = 0 then ""
  else ((tag.find? fun kv => kv.1 = key).map Prod.snd).getD ""

/-- Go `reflect.StructField`, the part the reader uses. -/
structure StructField where
  Name : String
  Typ : GoType
  Tag : StructTag
  deriving DecidableEq

/-- One field of the struct passed to `Read`: its declaration and its current value. -/
structure FieldSlot (F : Type) where
  field : StructField
  value : Value F
  deriving DecidableEq

/-! ## package envreader (reader.go) -/

/-- Go `EnvReader`: environment reader main object with tag definitions. -/
structure EnvReader where
  tag : String
  tagDefault : String
  deriving DecidableEq, Repr

def tagName : String := "env"

def tagNameDefault : String := "default"

namespace EnvReader

/-- Go `Init`: initializes the reader with the default tag names. -/
def Init (_env : EnvReader) : EnvReader := { tag := tagName, tagDefault := tagNameDefault }

/-- Go `SetTagName`. -/
def SetTagName (env : EnvReader) (name : String) : EnvReader := { env with tag := name }

/-- Go `SetTagNameDefault`. -/
def SetTagNameDefault (env : EnvReader) (name : String) : EnvReader :=
  { env with tagDefault := name }

/-- Go `GetTagName`. -/
def GetTagName (env : EnvReader) : String := env.tag

/-- Go `GetTagNameDefault`. -/
def GetTagNameDefault (env : EnvReader) : String := env.tagDefault

end EnvReader

/-- Go `getEnvFallback`: get environment value and provide fallback if empty. -/
def getEnvFallback (os : Env) (envName fallback : String) : String :=
  let envVal := Getenv os envName
  if len (TrimSpace envVal) = 0 then fallback else envVal

/-- One iteration of the `for count, value := range envInfoClean` loop of `createSlice`: the
new content of slot `count`, which holds `slot` (a zero value) before. -/
def sliceElem {F : Type} (lib : FloatLib F) (envInfoType : GoType) (slot : Value F)
    (value : String) : Value F :=
  if envInfoType = .slice .string then .string value
  else if envInfoType = .slice .int then
    match ParseInt value 10 GoType.int.Bits with
    | .ok reflectVal => SetInt .int reflectVal
    | .error _ => slot
  else if envInfoType = .slice .float32 then
    match lib.ParseFloat value 32 with
    | .ok reflectVal => SetFloat lib .float32 reflectVal
    | .error _ => slot
  else if envInfoType = .slice .float64 then
    match lib.ParseFloat value 64 with
    | .ok reflectVal => SetFloat lib .float64 reflectVal
    | .error _ => slot
  else slot

/-- Go `createSlice`: creates a slice from a string. -/
def createSlice {F : Type} (lib : FloatLib F) (envInfo : String) (envInfoType : GoType) :
    Value F :=
  let envInfoClean := Split (ReplaceAll envInfo ' ' "") ','
  let envInfoCleanLen := envInfoClean.length
  let reflectedSlice := MakeSlice lib envInfoType envInfoCleanLen
  .slice (List.zipWith (sliceElem lib envInfoType) reflectedSlice envInfoClean)

/-- Go `setEnvByType`: get environment value by type and set the field or fall back; the result
is the new value of the field, or the error. -/
def setEnvByType {F : Type} (lib : FloatLib F) (os : Env) (field : Value F)
    (envFieldType : GoType) (envValue envDefaultValue : String) : Except NumError (Value F) :=
  let environmentInfo := getEnvFallback os envValue envDefaultValue
  if len (TrimSpace environmentInfo) = 0 then .ok field
  else
    match envFieldType.Kind with
    | .Bool => .ok (.bool ((environmentInfo == "1") || (ToLower environmentInfo == "true")))
    | .Int | .Int64 | .Int32 | .Int16 | .Int8 =>
      match ParseInt environmentInfo 10 envFieldType.Bits with
      | .error err => .error err
      | .ok reflectVal => .ok (SetInt envFieldType reflectVal)
    | .Float64 | .Float32 =>
      match lib.ParseFloat environmentInfo envFieldType.Bits with
      | .error err => .error err
      | .ok reflectVal => .ok (SetFloat lib envFieldType reflectVal)
    | .Slice => .ok (createSlice lib environmentInfo envFieldType)
    | .String => .ok (.string environmentInfo)
    | _ => .ok field

/-- The body of the `for` loop of `Read` for one field: the tag values are looked up under the
reader's two tag names and handed to `setEnvByType` with the field's value and type. -/
def readField {F : Type} (lib : FloatLib F) (os : Env) (env : EnvReader) (slot : FieldSlot F) :
    Except NumError (Value F) :=
  let tagEnvValue := slot.field.Tag.Get env.tag
  let tagEnvValueDefault := slot.field.Tag.Get env.tagDefault
  setEnvByType lib os slot.value slot.field.Typ tagEnvValue tagEnvValueDefault

/-- Go `Read`: reads a structure and sets values set in environment variables.  The fields are
visited in declaration order; the result is the struct as the call leaves it, and the error
returned (`none` for `nil`). -/
def Read {F : Type} (lib : FloatLib F) (os : Env) (env : EnvReader) :
    List (FieldSlot F) → List (FieldSlot F) × Option NumError
  | [] => ([], none)
  | slot :: rest =>
    match readField lib os env slot with
    | .error err => (slot :: rest, some err)
    | .ok v =>
      let r := Read lib os env rest
      ({ slot with value := v } :: r.1, r.2)

/-! ## Specification-side vocabulary -/

/-- A text is blank when it is empty or consists only of white space. -/
def isBlank (s : String) : Bool := s.data.all isSpace

/-- The raw text `Read` resolves for a field: the environment value of the lookup key found
under the reader's key tag, else the text found under the default tag. -/
def rawValue (os : Env) (env : EnvReader) (f : StructField) : String :=
  getEnvFallback os (f.Tag.Get env.tag) (f.Tag.Get env.tagDefault)

/-- An ASCII decimal digit. -/
def isDigit (c : Char) : Bool := decide (0x30 ≤ c.toNat ∧ c.toNat ≤ 0x39)

/-- The natural number written by a sequence of decimal digits after the digits that gave
`n`, most significant first, without any bound. -/
def digitsValue (n : Nat) : List Char → Nat
  | [] => n
  | c :: cs => digitsValue (n * 10 + (c.toNat - 0x30)) cs

/-- The integer denoted by a well-formed base-10 integer text: an optional sign `+` or `-`
followed by one or more decimal digits; `none` for any other text. -/
def intOfText (s : String) : Option Int :=
  match s.data with
  | [] => none
  | c :: cs =>
    let ds := if c = '+' ∨ c = '-' then cs else c :: cs
    if ds ≠ [] ∧ ds.all isDigit = true then
      some (if c = '-' then -(digitsValue 0 ds : Int) else (digitsValue 0 ds : Int))
    else none

/-- The decimal digits of a natural number below `10 ^ (fuel + 1)`, most significant first. -/
def natDigits : Nat → Nat → List Char
  | 0, n => [Char.ofNat (0x30 + n % 10)]
  | fuel + 1, n =>
    if n < 10 then [Char.ofNat (0x30 + n)]
    else natDigits fuel (n / 10) ++ [Char.ofNat (0x30 + n % 10)]

/-- The base-10 text of an integer, as Go `strconv.FormatInt(v, 10)` writes it: a minus sign for
a negative number, then the digits without leading zeros. -/
def formatInt (v : Int) : String :=
  if v < 0 then ⟨'-' :: natDigits v.natAbs v.natAbs⟩ else ⟨natDigits v.natAbs v.natAbs⟩

/-- The kinds of the scalar signed integer types. -/
def isIntKind : Kind → Bool
  | .Int | .Int8 | .Int16 | .Int32 | .Int64 => true
  | _ => false

/-- The kinds of the scalar floating point types. -/
def isFloatKind : Kind → Bool
  | .Float32 | .Float64 => true
  | _ => false

/-- The error of the scalar parse of a field, when there is one: the field is a scalar signed
integer or a scalar float, its resolved raw value is not blank, and the raw value does not parse
at the bit width of the field. -/
def scalarParseError {F : Type} (lib : FloatLib F) (os : Env) (env : EnvReader)
    (f : StructField) : Option NumError :=
  if isBlank (rawValue os env f) = true then none
  else if isIntKind f.Typ.Kind = true then
    match ParseInt (rawValue os env f) 10 f.Typ.Bits with
    | .error e => some e
    | .ok _ => none
  else if isFloatKind f.Typ.Kind = true then
    match lib.ParseFloat (rawValue os env f) f.Typ.Bits with
    | .error e => some e
    | .ok _ => none
  else none

/-- The segments written one after the other with `sep` between neighbours. -/
def joinWith (sep : Char) : List (List Char) → List Char
  | [] => []
  | [x] => x
  | x :: y :: rest => x ++ sep :: joinWith sep (y :: rest)

/-- The content of a slot of an int list for one segment: the integer the segment denotes when
it is a well-formed base-10 integer that fits 64 bits, zero otherwise. -/
def intSlotOf (seg : String) : Int :=
  match intOfText seg with
  | some n => if -(2 : Int) ^ 63 ≤ n ∧ n ≤ 2 ^ 63 - 1 then n else 0
  | none => 0

/-! ## Sample data -/

/-- The value of a plain decimal literal `digits` or `digits.digits` as a pair of the mantissa
and the number of fractional digits; `none` for any other text. -/
def decimalLiteral (ds : List Char) : Option (Int × Nat) :=
  match splitRunes '.' ds with
  | [whole] =>
    if whole ≠ [] ∧ whole.all isDigit = true then some ((digitsValue 0 whole : Int), 0) else none
  | [whole, frac] =>
    if whole ≠ [] ∧ whole.all isDigit = true ∧ frac ≠ [] ∧ frac.all isDigit = true then
      some ((digitsValue 0 (whole ++ frac) : Int), frac.length)
    else none
  | _ => none

/-- A small floating point instance to run the reader on examples: only the plain decimal
literals (optional sign, digits, optional fraction) are accepted and they are kept exactly, as
mantissa and number of fractional digits.  The real `ParseFloat` accepts more texts and rounds;
the theorems do not depend on this instance. -/
def decimalLib : FloatLib (Int × Nat) where
  zero := (0, 0)
  ParseFloat := fun s _ =>
    match s.data with
    | [] => .error (syntaxError "ParseFloat" s)
    | c :: cs =>
      match decimalLiteral (if c = '+' ∨ c = '-' then cs else c :: cs) with
      | some (m, k) => .ok (if c = '-' then -m else m, k)
      | none => .error (syntaxError "ParseFloat" s)
  toFloat32 := id

/-- The reader of the tests: `reader := envreader.EnvReader{}; reader.Init()`. -/
def testReader : EnvReader := EnvReader.Init ⟨"", ""⟩

/-- The field `Email string` of the test struct `User`, without tag, preset to `john@example`. -/
def userEmail : FieldSlot (Int × Nat) :=
  ⟨⟨"Email", .string, []⟩, .string "john@example"⟩

/-- The fields of the test struct `User` before `Email`, with the values the tests preset:
`Id: 1`, `Name: "John Doe"`, every other field at its zero value. -/
def userBeforeEmail : List (FieldSlot (Int × Nat)) :=
  [ ⟨⟨"Id", .int, [("env", "ID")]⟩, .int 1⟩,
    ⟨⟨"IdEnv", .int, [("env", "IDENV"), ("default", "100")]⟩, .int 0⟩,
    ⟨⟨"Name", .string, [("env", "NAME"), ("default", "Pepito")]⟩, .string "John Doe"⟩,
    ⟨⟨"Age", .int64, [("env", "AGE"), ("default", "37")]⟩, .int 0⟩,
    ⟨⟨"AgeInt32", .int32, [("env", "AGE"), ("default", "400")]⟩, .int 0⟩,
    ⟨⟨"Size", .float64, [("env", "SIZE"), ("default", "4.8")]⟩, .float (0, 0)⟩,
    ⟨⟨"Hobbies", .slice .string, [("env", "HOBBIES"), ("default", "dancing, sleeping,gaming")]⟩,
      .zero (.slice .string)⟩,
    ⟨⟨"Counter", .slice .int, [("env", "COUNTER"), ("default", "1, 7,2,3")]⟩,
      .zero (.slice .int)⟩,
    ⟨⟨"DataFloat", .slice .float32, [("env", "DATAFLOAT"), ("default", "1.1,2.2,2.3,3.1")]⟩,
      .zero (.slice .float32)⟩,
    ⟨⟨"DataFloat64", .slice .float64, [("env", "DATAFLOAT64"), ("default", "1.1,2.2,2.3,3.1")]⟩,
      .zero (.slice .float64)⟩,
    ⟨⟨"Enabled", .bool, [("env", "ENABLED"), ("default", "true")]⟩, .bool false⟩ ]

/-- The test struct `User` as the tests preset it. -/
def testUser : List (FieldSlot (Int × Nat)) := userBeforeEmail ++ [userEmail]

/-- The values `TestReader` expects in the test struct after `Read` with `IDENV=2`, in
declaration order (`4.8` is mantissa 48 with one fractional digit in `decimalLib`). -/
def testUserExpected : List (Value (Int × Nat)) :=
  [ .int 1, .int 2, .string "Pepito", .int 37, .int 400, .float (48, 1),
    .slice [.string "dancing", .string "sleeping", .string "gaming"],
    .slice [.int 1, .int 7, .int 2, .int 3],
    .slice [.float (11, 1), .float (22, 1), .float (23, 1), .float (31, 1)],
    .slice [.float (11, 1), .float (22, 1), .float (23, 1), .float (31, 1)],
    .bool true, .string "john@example" ]

/-- A field `Level int8` with lookup key `LEVEL` and no default, preset to 5. -/
def levelSlot : FieldSlot (Int × Nat) :=
  ⟨⟨"Level", .int8, [("env", "LEVEL")]⟩, .int 5⟩

/-- A field `Enabled bool` with lookup key `ENABLED` and default `true`, preset to `true`. -/
def enabledSlot : FieldSlot (Int × Nat) :=
  ⟨⟨"Enabled", .bool, [("env", "ENABLED"), ("default", "true")]⟩, .bool true⟩

/-- The field `Hobbies []string` of the test struct `User`, at its zero value. -/
def hobbiesSlot : FieldSlot (Int × Nat) :=
  ⟨⟨"Hobbies", .slice .string, [("env", "HOBBIES"), ("default", "dancing, sleeping,gaming")]⟩,
    .zero (.slice .string)⟩

/-- The field `Counter []int` of the test struct `User`, at its zero value. -/
def counterSlot : FieldSlot (Int × Nat) :=
  ⟨⟨"Counter", .slice .int, [("env", "COUNTER"), ("default", "1, 7,2,3")]⟩,
    .zero (.slice .int)⟩

/-- A field `Port uint16` with lookup key `PORT`, preset to 80. -/
def portSlot : FieldSlot (Int × Nat) :=
  ⟨⟨"Port", .uint16, [("env", "PORT")]⟩, .uint 80⟩

/-- A field `Ids []int64` with lookup key `IDS`, preset to `[]int64{5, 6}`. -/
def idsSlot : FieldSlot (Int × Nat) :=
  ⟨⟨"Ids", .slice .int64, [("env", "IDS")]⟩, .slice [.int 5, .int 6]⟩

/-- The field `Name string` of the test struct `User`, preset to `John Doe`. -/
def nameSlot : FieldSlot (Int × Nat) :=
  ⟨⟨"Name", .string, [("env", "NAME"), ("default", "Pepito")]⟩, .string "John Doe"⟩

/-- The field `IdEnv int` of the test struct `User`, at its zero value. -/
def idEnvSlot : FieldSlot (Int × Nat) :=
  ⟨⟨"IdEnv", .int, [("env", "IDENV"), ("default", "100")]⟩, .int 0⟩

/-- The struct `Config` of `ExampleEnvReader_Read`, zero-valued (`var configuration Config`). -/
def exampleConfig (F : Type) : List (FieldSlot F) :=
  [ ⟨⟨"ListenHost", .string, [("env", "LISTEN_HOST"), ("default", "127.0.0.1")]⟩, .string ""⟩,
    ⟨⟨"ListenPort", .string, [("env", "LISTEN_PORT"), ("default", "5000")]⟩, .string ""⟩,
    ⟨⟨"Debug", .bool, [("env", "ENABLE_DEBUG")]⟩, .bool false⟩,
    ⟨⟨"Numbers", .slice .int, [("env", "NUMBERS"), ("default", "1,2,3,4")]⟩,
      .zero (.slice .int)⟩ ]

/-- The values `ExampleEnvReader_Read` prints:
`{ListenHost:127.0.0.1 ListenPort:5000 Debug:false Numbers:[1 2 3 4]}`. -/
def exampleConfigExpected (F : Type) : List (Value F) :=
  [ .string "127.0.0.1", .string "5000", .bool false,
    .slice [.int 1, .int 2, .int 3, .int 4] ]

/-! ## The reader as state, and further vocabulary -/

/-- A field as it would be declared without the tag entries named `name`. -/
def eraseTag {F : Type} (name : String) (slot : FieldSlot F) : FieldSlot F :=
  { slot with field :=
      { slot.field with Tag := slot.field.Tag.filter (fun kv => decide (kv.1 ≠ name)) } }

/-- The struct `ConfigCustom` of `examples/customTags.go`, zero-valued. -/
def customConfig : List (FieldSlot (Int × Nat)) :=
  [ ⟨⟨"ListenHost", .string, [("envvalue", "LISTEN_HOST"), ("default", "127.0.0.1")]⟩,
      .string ""⟩,
    ⟨⟨"ListenPort", .string, [("envvalue", "LISTEN_PORT"), ("default", "5000")]⟩, .string ""⟩,
    ⟨⟨"Debug", .bool, [("envvalue", "ENABLE_DEBUG")]⟩, .bool false⟩ ]

/-- The body of the loop of `Read` with the pointer receiver `env` carried as state: the reader
the call leaves, and what `readField` returns.  `setEnvByType` and the methods it calls
(`getEnvFallback`, `createSlice`) contain no assignment through `env`. -/
def readFieldLoader {F : Type} (lib : FloatLib F) (os : Env) (env : EnvReader)
    (slot : FieldSlot F) : EnvReader × Except NumError (Value F) :=
  (env, readField lib os env slot)

/-- Go `Read` with the pointer receiver `env` carried as state through the loop: the reader as
the call leaves it, the struct as the call leaves it, and the error returned. -/
def ReadLoader {F : Type} (lib : FloatLib F) (os : Env) :
    EnvReader → List (FieldSlot F) → EnvReader × List (FieldSlot F) × Option NumError
  | env, [] => (env, [], none)
  | env, slot :: rest =>
    let step := readFieldLoader lib os env slot
    match step.2 with
    | .error err => (step.1, slot :: rest, some err)
    | .ok v =>
      let r := ReadLoader lib os step.1 rest
      (r.1, { slot with value := v } :: r.2.1, r.2.2)

/-- The text `t` with `l` leading and `r` trailing space characters (U+0020). -/
def padded (l : Nat) (t : String) (r : Nat) : String :=
  ⟨List.replicate l ' ' ++ t.data ++ List.replicate r ' '⟩

/-- The types `Read` populates: bool, the signed integers, the floats, string (by kind), and
exactly `[]string`, `[]int`, `[]float32`, `[]float64`. -/
def isSupportedType (t : GoType) : Bool :=
  decide (t.Kind = .Bool ∨ isIntKind t.Kind = true ∨ isFloatKind t.Kind = true ∨
    t.Kind = .String ∨ t = .slice .string ∨ t = .slice .int ∨ t = .slice .float32 ∨
    t = .slice .float64)

/-- The field `Size float64` of the test struct `User`, at its zero value. -/
def sizeSlot : FieldSlot (Int × Nat) :=
  ⟨⟨"Size", .float64, [("env", "SIZE"), ("default", "4.8")]⟩, .float (0, 0)⟩

/-! ## White space -/

theorem trimRight_eq_nil (l : List Char) : trimRight l = [] ↔ ∀ c ∈ l, isSpace c = true := by
  induction l with
  | nil => simp [trimRight]
  | cons c cs ih =>
    simp only [trimRight, List.mem_cons, forall_eq_or_imp]
    cases h : trimRight cs with
    | nil =>
      have hcs := ih.mp h
      by_cases hc : isSpace c = true
      · simpa [hc] using hcs
      · simp [hc]
    | cons r rs =>
      have : ¬ ∀ c ∈ cs, isSpace c = true := fun hall => by
        rw [ih.mpr hall] at h
        cases h
      simp [this]

theorem all_dropWhile_isSpace (l : List Char) :
    (∀ c ∈ l.dropWhile isSpace, isSpace c = true) ↔ ∀ c ∈ l, isSpace c = true := by
  induction l with
  | nil => simp
  | cons c cs ih =>
    by_cases hc : isSpace c = true
    · simp [List.dropWhile, hc, ih]
    · simp [List.dropWhile, hc]

theorem len_TrimSpace_eq_zero (s : String) : len (TrimSpace s) = 0 ↔ isBlank s = true := by
  simp only [len, TrimSpace, List.length_eq_zero, trimRight_eq_nil, all_dropWhile_isSpace,
    isBlank, List.all_eq_true]

theorem getEnvFallback_eq (os : Env) (envName fallback : String) :
    getEnvFallback os envName fallback =
      if isBlank (Getenv os envName) then fallback else Getenv os envName := by
  simp only [getEnvFallback, len_TrimSpace_eq_zero]

/-! ## Lower-casing -/

theorem char_eq_of_toNat_eq {c d : Char} (h : c.toNat = d.toNat) : c = d := by
  apply Char.ext
  apply UInt32.ext
  exact h

theorem toLowerRune_upper (c : Char) (h : 0x41 ≤ c.toNat ∧ c.toNat ≤ 0x5A) :
    (toLowerRune c).toNat = c.toNat + 32 := by
  simp only [toLowerRune, h, and_self, if_true]
  obtain ⟨h1, h2⟩ := h
  generalize c.toNat = n at h1 h2
  interval_cases n <;> rfl

theorem toLowerRune_eq_iff (c x up : Char) (hx : 0x61 ≤ x.toNat ∧ x.toNat ≤ 0x7A)
    (hi : x ≠ 'i') (hk : x ≠ 'k') (hup : up.toNat + 32 = x.toNat) :
    toLowerRune c = x ↔ c = x ∨ c = up := by
  by_cases h : 0x41 ≤ c.toNat ∧ c.toNat ≤ 0x5A
  · have hlow := toLowerRune_upper c h
    constructor
    · intro heq
      right
      apply char_eq_of_toNat_eq
      rw [← heq, hlow] at hup
      omega
    · intro heq
      rcases heq with rfl | rfl
      · omega
      · apply char_eq_of_toNat_eq
        rw [hlow, hup]
  · have hlow : toLowerRune c =
        if c.toNat = 0x130 then 'i' else if c.toNat = 0x212A then 'k' else c := by
      simp only [toLowerRune, h, if_false]
    rw [hlow]
    constructor
    · intro heq
      split_ifs at heq with h1 h2
      · exact absurd heq.symm hi
      · exact absurd heq.symm hk
      · exact Or.inl heq
    · intro heq
      rcases heq with rfl | rfl
      · rw [if_neg (by omega), if_neg (by omega)]
      · omega

theorem ToLower_eq_true_iff (r : String) :
    ToLower r = "true" ↔
      ∃ a b c d, r.data = [a, b, c, d] ∧ (a = 't' ∨ a = 'T') ∧ (b = 'r' ∨ b = 'R') ∧
        (c = 'u' ∨ c = 'U') ∧ (d = 'e' ∨ d = 'E') := by
  have ht := fun c => toLowerRune_eq_iff c 't' 'T' (by decide) (by decide) (by decide) (by decide)
  have hr := fun c => toLowerRune_eq_iff c 'r' 'R' (by decide) (by decide) (by decide) (by decide)
  have hu := fun c => toLowerRune_eq_iff c 'u' 'U' (by decide) (by decide) (by decide) (by decide)
  have he := fun c => toLowerRune_eq_iff c 'e' 'E' (by decide) (by decide) (by decide) (by decide)
  have hstr : ToLower r = "true" ↔ r.data.map toLowerRune = ['t', 'r', 'u', 'e'] := by
    constructor
    · intro h
      exact congrArg String.data h
    · intro h
      exact String.ext h
  rw [hstr]
  constructor
  · intro h
    rcases hd : r.data with _ | ⟨a, _ | ⟨b, _ | ⟨c, _ | ⟨d, _ | ⟨x, l⟩⟩⟩⟩⟩ <;>
      rw [hd] at h <;> simp only [List.map_nil, List.map_cons, List.cons.injEq, and_true,
        reduceCtorEq, and_false] at h
    exact ⟨a, b, c, d, rfl, (ht a).mp h.1, (hr b).mp h.2.1, (hu c).mp h.2.2.1,
      (he d).mp h.2.2.2⟩
  · rintro ⟨a, b, c, d, hd, h1, h2, h3, h4⟩
    rw [hd]
    simp only [List.map_cons, List.map_nil, (ht a).mpr h1, (hr b).mpr h2, (hu c).mpr h3,
      (he d).mpr h4]

/-! ## strconv.ParseUint and strconv.ParseInt against the denotation -/

theorem digitsValue_nil (n : Nat) : digitsValue n [] = n := rfl

theorem digitsValue_cons (n : Nat) (c : Char) (cs : List Char) :
    digitsValue n (c :: cs) = digitsValue (n * 10 + (c.toNat - 0x30)) cs := rfl

theorem digitsValue_ge (cs : List Char) (n : Nat) : n ≤ digitsValue n cs := by
  induction cs generalizing n with
  | nil => rw [digitsValue_nil]
  | cons c cs ih =>
    have h1 : n ≤ n * 10 + (c.toNat - 0x30) := by omega
    have h2 := ih (n * 10 + (c.toNat - 0x30))
    rw [digitsValue_cons]
    omega

theorem digitsValue_mono (cs : List Char) {m n : Nat} (h : m ≤ n) :
    digitsValue m cs ≤ digitsValue n cs := by
  induction cs generalizing m n with
  | nil => simpa only [digitsValue_nil] using h
  | cons c cs ih =>
    have h1 : m * 10 + (c.toNat - 0x30) ≤ n * 10 + (c.toNat - 0x30) := by omega
    rw [digitsValue_cons, digitsValue_cons]
    exact ih h1

theorem maxVal_eq {w : Nat} (hw64 : w ≤ 64) :
    (2 ^ w % 2 ^ 64 + 2 ^ 64 - 1) % 2 ^ 64 = 2 ^ w - 1 := by
  have h1 : 1 ≤ 2 ^ w := Nat.one_le_two_pow
  have h2 : 2 ^ w ≤ 2 ^ 64 := Nat.pow_le_pow_right (by norm_num) hw64
  generalize 2 ^ w = P at h1 h2
  omega

theorem parseUintLoop_digits (s0 : String) (maxVal : Nat) (hmax : maxVal < 2 ^ 64)
    (ds : List Char) (hds : ds.all isDigit = true) (n : Nat) (hn : n ≤ maxVal) :
    parseUintLoop s0 10 (maxUint64 / 10 + 1) maxVal ds n =
      if digitsValue n ds ≤ maxVal then (digitsValue n ds, none)
      else (maxVal, some (rangeError "ParseUint" s0)) := by
  induction ds generalizing n with
  | nil =>
    simp only [parseUintLoop, digitsValue_nil]
    rw [if_pos hn]
  | cons c cs ih =>
    simp only [List.all_cons, Bool.and_eq_true] at hds
    obtain ⟨hc, hcs⟩ := hds
    simp only [isDigit, decide_eq_true_eq] at hc
    simp only [parseUintLoop, hc, and_self, if_true, digitsValue_cons]
    have hd : ¬ (c.toNat - 48 ≥ 10) := by omega
    rw [if_neg hd]
    have hge := digitsValue_ge cs (n * 10 + (c.toNat - 48))
    by_cases hcut : n ≥ maxUint64 / 10 + 1
    · rw [if_pos hcut]
      simp only [maxUint64] at hcut
      rw [if_neg (by omega)]
    · rw [if_neg hcut]
      simp only [maxUint64] at hcut
      have h10 : n * 10 % 2 ^ 64 = n * 10 := Nat.mod_eq_of_lt (by omega)
      rw [h10]
      by_cases hov : n * 10 + (c.toNat - 48) < 2 ^ 64
      · have h1 : (n * 10 + (c.toNat - 48)) % 2 ^ 64 = n * 10 + (c.toNat - 48) :=
          Nat.mod_eq_of_lt hov
        rw [h1]
        by_cases hle : n * 10 + (c.toNat - 48) ≤ maxVal
        · rw [if_neg (by omega)]
          exact ih hcs _ hle
        · rw [if_pos (by omega), if_neg (by omega)]
      · have h1 : (n * 10 + (c.toNat - 48)) % 2 ^ 64 = n * 10 + (c.toNat - 48) - 2 ^ 64 := by
          omega
        rw [h1, if_pos (by omega), if_neg (by omega)]

theorem parseUintLoop_not_digits (s0 : String) (cutoff maxVal : Nat) (ds : List Char)
    (hds : ds.all isDigit = false) (n : Nat) :
    ∃ u e, parseUintLoop s0 10 cutoff maxVal ds n = (u, some e) ∧
      (e.Err = .ErrSyntax ∨ (e.Err = .ErrRange ∧ u = maxVal)) := by
  induction ds generalizing n with
  | nil => simp at hds
  | cons c cs ih =>
    simp only [parseUintLoop]
    by_cases hc : 0x30 ≤ c.toNat ∧ c.toNat ≤ 0x39
    · have hcs : cs.all isDigit = false := by
        simpa [List.all_cons, isDigit, hc] using hds
      simp only [hc, and_self, if_true]
      split_ifs
      · exact ⟨_, _, rfl, Or.inl rfl⟩
      · exact ⟨_, _, rfl, Or.inr ⟨rfl, rfl⟩⟩
      · exact ⟨_, _, rfl, Or.inr ⟨rfl, rfl⟩⟩
      · exact ih hcs _
    · rw [if_neg hc]
      by_cases hl : c.toNat < 0x80 ∧ 0x61 ≤ lower c.toNat ∧ lower c.toNat ≤ 0x7A
      · have : lower c.toNat - 0x61 + 10 ≥ 10 := by omega
        simp only [hl, and_self, if_true, this]
        exact ⟨_, _, rfl, Or.inl rfl⟩
      · simp only [hl, if_false]
        exact ⟨_, _, rfl, Or.inl rfl⟩

theorem ParseUint_digits (w : Nat) (hw : 1 ≤ w) (hw64 : w ≤ 64) (ds : List Char) (hne : ds ≠ [])
    (hds : ds.all isDigit = true) :
    ParseUint ⟨ds⟩ 10 w =
      if digitsValue 0 ds ≤ 2 ^ w - 1 then (digitsValue 0 ds, none)
      else (2 ^ w - 1, some (rangeError "ParseUint" ⟨ds⟩)) := by
  have hlen : ¬ ds.length = 0 := by simpa using hne
  have hw0 : ¬ w = 0 := by omega
  have hw1 : ¬ w > 64 := by omega
  have h2 : 2 ^ w ≤ 2 ^ 64 := Nat.pow_le_pow_right (by norm_num) hw64
  have h1 : 1 ≤ 2 ^ w := Nat.one_le_two_pow
  simp only [ParseUint, hlen, if_false, hw0, hw1, maxVal_eq hw64]
  exact parseUintLoop_digits _ _ (by omega) ds hds 0 (by omega)

theorem ParseUint_not_digits (w : Nat) (hw : 1 ≤ w) (hw64 : w ≤ 64) (ds : List Char)
    (h : ds = [] ∨ ds.all isDigit = false) :
    ∃ u e, ParseUint ⟨ds⟩ 10 w = (u, some e) ∧
      (e.Err = .ErrSyntax ∨ (e.Err = .ErrRange ∧ u = 2 ^ w - 1)) := by
  by_cases hlen : ds.length = 0
  · simp only [ParseUint, hlen, if_true]
    exact ⟨_, _, rfl, Or.inl rfl⟩
  · have hw0 : ¬ w = 0 := by omega
    have hw1 : ¬ w > 64 := by omega
    simp only [ParseUint, hlen, if_false, hw0, hw1, maxVal_eq hw64]
    rcases h with h | h
    · simp [h] at hlen
    · exact parseUintLoop_not_digits _ _ _ ds h 0

theorem int64_of_lt {u : Nat} (h : u < 2 ^ 63) : int64 u = (u : Int) := by
  have h1 : u % 2 ^ 64 = u := Nat.mod_eq_of_lt (by omega)
  simp only [int64, h1, h, if_true]

theorem negInt64_int64 {u : Nat} (h : u ≤ 2 ^ 63) : negInt64 (int64 u) = -(u : Int) := by
  have h1 : u % 2 ^ 64 = u := Nat.mod_eq_of_lt (by omega)
  simp only [negInt64, int64, h1]
  split_ifs <;> omega

theorem two_pow_pred_bounds {w : Nat} (hw : 1 ≤ w) (hw64 : w ≤ 64) :
    1 ≤ 2 ^ (w - 1) ∧ 2 ^ (w - 1) ≤ 2 ^ 63 :=
  ⟨Nat.one_le_two_pow, Nat.pow_le_pow_right (by norm_num) (by omega)⟩

theorem two_pow_eq_double {w : Nat} (hw : 1 ≤ w) : 2 ^ w = 2 * 2 ^ (w - 1) := by
  have h : w = (w - 1) + 1 := by omega
  conv_lhs => rw [h, pow_succ]
  ring

theorem parseIntRange_eq (s : String) (neg : Bool) (u w : Nat) (hw : 1 ≤ w) (hw64 : w ≤ 64) :
    parseIntRange s neg u w =
      if neg = true then
        (if u ≤ 2 ^ (w - 1) then .ok (-(u : Int)) else .error (rangeError "ParseInt" s))
      else
        (if u < 2 ^ (w - 1) then .ok (u : Int) else .error (rangeError "ParseInt" s)) := by
  obtain ⟨hP1, hP2⟩ := two_pow_pred_bounds hw hw64
  have hw0 : ¬ w = 0 := by omega
  have hcut : 2 ^ (w - 1) % 2 ^ 64 = 2 ^ (w - 1) := Nat.mod_eq_of_lt (by omega)
  simp only [parseIntRange, hw0, if_false, hcut]
  cases neg with
  | true =>
    simp only [Bool.true_eq_false, false_and, if_false, true_and, if_true]
    by_cases hle : u ≤ 2 ^ (w - 1)
    · rw [if_neg (by omega), if_pos hle, negInt64_int64 (by omega)]
    · rw [if_pos (by omega), if_neg hle]
  | false =>
    simp only [true_and, Bool.false_eq_true, false_and, if_false]
    by_cases hlt : u < 2 ^ (w - 1)
    · rw [if_neg (by omega), if_pos hlt, int64_of_lt (by omega)]
    · rw [if_pos (by omega), if_neg hlt]

theorem ParseInt_of_ok (s : String) (c : Char) (cs : List Char) (h : s.data = c :: cs)
    (w u : Nat) (hw : 1 ≤ w) (hw64 : w ≤ 64)
    (hu : ParseUint (if c = '+' ∨ c = '-' then ⟨cs⟩ else ⟨c :: cs⟩) 10 w = (u, none)) :
    ParseInt s 10 w =
      if c = '-' then
        (if u ≤ 2 ^ (w - 1) then .ok (-(u : Int)) else .error (rangeError "ParseInt" s))
      else
        (if u < 2 ^ (w - 1) then .ok (u : Int) else .error (rangeError "ParseInt" s)) := by
  simp only [ParseInt, h, hu, parseIntRange_eq s _ u w hw hw64, decide_eq_true_eq]

theorem ParseInt_of_range (s : String) (c : Char) (cs : List Char) (h : s.data = c :: cs)
    (w : Nat) (hw : 2 ≤ w) (hw64 : w ≤ 64) (e : NumError) (he : e.Err = .ErrRange)
    (hu : ParseUint (if c = '+' ∨ c = '-' then ⟨cs⟩ else ⟨c :: cs⟩) 10 w =
      (2 ^ w - 1, some e)) :
    ParseInt s 10 w = .error (rangeError "ParseInt" s) := by
  obtain ⟨hP1, hP2⟩ := two_pow_pred_bounds (by omega : 1 ≤ w) hw64
  have hdouble := two_pow_eq_double (by omega : 1 ≤ w)
  have hP3 : 2 ≤ 2 ^ (w - 1) := by
    have : 2 ^ 1 ≤ 2 ^ (w - 1) := Nat.pow_le_pow_right (by norm_num) (by omega)
    simpa using this
  simp only [ParseInt, h, hu, he, ne_eq, not_true_eq_false, if_false,
    parseIntRange_eq s _ _ w (by omega) hw64, decide_eq_true_eq]
  rw [hdouble]
  generalize 2 ^ (w - 1) = P at hP1 hP2 hP3
  split_ifs <;> first | rfl | omega

theorem ParseInt_of_syntax (s : String) (c : Char) (cs : List Char) (h : s.data = c :: cs)
    (w u : Nat) (e : NumError) (he : e.Err = .ErrSyntax)
    (hu : ParseUint (if c = '+' ∨ c = '-' then ⟨cs⟩ else ⟨c :: cs⟩) 10 w = (u, some e)) :
    ParseInt s 10 w = .error (syntaxError "ParseInt" s) := by
  simp only [ParseInt, h, hu, he, ne_eq, reduceCtorEq, not_false_eq_true, if_true, syntaxError]

theorem intOfText_cons (s : String) (c : Char) (cs : List Char) (h : s.data = c :: cs) :
    intOfText s =
      if (if c = '+' ∨ c = '-' then cs else c :: cs) ≠ [] ∧
          (if c = '+' ∨ c = '-' then cs else c :: cs).all isDigit = true then
        some (if c = '-' then -(digitsValue 0 (if c = '+' ∨ c = '-' then cs else c :: cs) : Int)
          else (digitsValue 0 (if c = '+' ∨ c = '-' then cs else c :: cs) : Int))
      else none := by
  simp only [intOfText, h]

theorem ParseInt_denotes (s : String) (w : Nat) (hw : 2 ≤ w) (hw64 : w ≤ 64) (n : Int)
    (h : intOfText s = some n) :
    ParseInt s 10 w =
      if -(2 : Int) ^ (w - 1) ≤ n ∧ n ≤ 2 ^ (w - 1) - 1 then .ok n
      else .error (rangeError "ParseInt" s) := by
  have hw1 : 1 ≤ w := by omega
  obtain ⟨hP1, hP2⟩ := two_pow_pred_bounds hw1 hw64
  have hdouble := two_pow_eq_double hw1
  have hcast : ((2 : Int) ^ (w - 1)) = ((2 ^ (w - 1) : Nat) : Int) := by push_cast; rfl
  cases hs : s.data with
  | nil => simp [intOfText, hs] at h
  | cons c cs =>
    rw [intOfText_cons s c cs hs] at h
    have hrest : (if c = '+' ∨ c = '-' then (⟨cs⟩ : String) else ⟨c :: cs⟩) =
        ⟨if c = '+' ∨ c = '-' then cs else c :: cs⟩ := by split_ifs <;> rfl
    generalize hds : (if c = '+' ∨ c = '-' then cs else c :: cs) = ds at h hrest
    by_cases hwf : ds ≠ [] ∧ ds.all isDigit = true
    · rw [if_pos hwf] at h
      have hn : n = if c = '-' then -(digitsValue 0 ds : Int) else (digitsValue 0 ds : Int) :=
        (Option.some.inj h).symm
      have hU := ParseUint_digits w hw1 hw64 ds hwf.1 hwf.2
      by_cases hD : digitsValue 0 ds ≤ 2 ^ w - 1
      · rw [if_pos hD, ← hrest] at hU
        rw [ParseInt_of_ok s c cs hs w _ hw1 hw64 hU, hcast, hn]
        generalize 2 ^ (w - 1) = P at hP1 hP2
        generalize digitsValue 0 ds = D
        by_cases hneg : c = '-'
        · simp only [hneg, if_true]
          by_cases hle : D ≤ P
          · rw [if_pos hle, if_pos (by omega)]
          · rw [if_neg hle, if_neg (by omega)]
        · simp only [hneg, if_false]
          by_cases hlt : D < P
          · rw [if_pos hlt, if_pos (by omega)]
          · rw [if_neg hlt, if_neg (by omega)]
      · rw [if_neg hD, ← hrest] at hU
        rw [ParseInt_of_range s c cs hs w hw hw64 _ rfl hU, hcast, hn, if_neg]
        rw [hdouble] at hD
        generalize 2 ^ (w - 1) = P at hP1 hP2 hD
        generalize digitsValue 0 ds = D at hD
        split_ifs <;> omega
    · rw [if_neg hwf] at h
      cases h

theorem ParseInt_malformed (s : String) (w : Nat) (hw : 2 ≤ w) (hw64 : w ≤ 64)
    (h : intOfText s = none) : ∃ e, ParseInt s 10 w = .error e := by
  have hw1 : 1 ≤ w := by omega
  cases hs : s.data with
  | nil =>
    refine ⟨syntaxError "ParseInt" s, ?_⟩
    simp only [ParseInt, hs]
  | cons c cs =>
    rw [intOfText_cons s c cs hs] at h
    have hrest : (if c = '+' ∨ c = '-' then (⟨cs⟩ : String) else ⟨c :: cs⟩) =
        ⟨if c = '+' ∨ c = '-' then cs else c :: cs⟩ := by split_ifs <;> rfl
    generalize hds : (if c = '+' ∨ c = '-' then cs else c :: cs) = ds at h hrest
    have hbad : ds = [] ∨ ds.all isDigit = false := by
      by_cases hne : ds = []
      · exact Or.inl hne
      · right
        by_contra hall
        rw [if_pos ⟨hne, by simpa using hall⟩] at h
        cases h
    obtain ⟨u, e, he, hkind⟩ := ParseUint_not_digits w hw1 hw64 ds hbad
    rw [← hrest] at he
    rcases hkind with hk | ⟨hk, hu⟩
    · exact ⟨_, ParseInt_of_syntax s c cs hs w u e hk he⟩
    · rw [hu] at he
      exact ⟨_, ParseInt_of_range s c cs hs w hw hw64 e hk he⟩

/-! ## Integer ranges and the base-10 text of an integer -/

theorem truncInt_of_range (w : Nat) (hw : 1 ≤ w) (x : Int)
    (h1 : -(2 : Int) ^ (w - 1) ≤ x) (h2 : x ≤ 2 ^ (w - 1) - 1) : truncInt w x = x := by
  have hpow : (2 : Int) ^ w = 2 * ((2 ^ (w - 1) : Nat) : Int) := by
    have : w = (w - 1) + 1 := by omega
    conv_lhs => rw [this, pow_succ]
    push_cast
    ring
  have hcast : ((2 : Int) ^ (w - 1)) = ((2 ^ (w - 1) : Nat) : Int) := by push_cast; rfl
  have hP : 1 ≤ 2 ^ (w - 1) := Nat.one_le_two_pow
  simp only [truncInt]
  rw [hcast] at h1 h2 ⊢
  rw [hpow]
  generalize 2 ^ (w - 1) = P at h1 h2 hP
  by_cases hx : 0 ≤ x
  · have h3 : x % (2 * P : Int) = x := Int.emod_eq_of_lt hx (by omega)
    rw [h3, if_pos (by omega)]
  · have h3 : x % (2 * P : Int) = x + 2 * P := by
      have h4 : (x + 2 * P) % (2 * P : Int) = x % (2 * P) := by simp
      rw [← h4]
      exact Int.emod_eq_of_lt (by omega) (by omega)
    rw [h3, if_neg (by omega)]
    omega

theorem ParseInt_ok_range (s : String) (w : Nat) (hw : 2 ≤ w) (hw64 : w ≤ 64) (n : Int)
    (h : ParseInt s 10 w = .ok n) :
    intOfText s = some n ∧ -(2 : Int) ^ (w - 1) ≤ n ∧ n ≤ 2 ^ (w - 1) - 1 := by
  cases hd : intOfText s with
  | none =>
    obtain ⟨e, he⟩ := ParseInt_malformed s w hw hw64 hd
    rw [he] at h
    cases h
  | some m =>
    rw [ParseInt_denotes s w hw hw64 m hd] at h
    by_cases hr : -(2 : Int) ^ (w - 1) ≤ m ∧ m ≤ 2 ^ (w - 1) - 1
    · rw [if_pos hr] at h
      have hmn : m = n := by simpa using h
      subst hmn
      exact ⟨rfl, hr⟩
    · rw [if_neg hr] at h
      cases h

theorem isIntKind_Bits (t : GoType) (h : isIntKind t.Kind = true) :
    t.Bits = 8 ∨ t.Bits = 16 ∨ t.Bits = 32 ∨ t.Bits = 64 := by
  induction t with
  | named name u ih => exact ih h
  | composite k descr => cases k <;> simp [GoType.Kind, isIntKind] at h
  | slice e _ => simp [GoType.Kind, isIntKind] at h
  | _ => first | (simp [GoType.Kind, isIntKind] at h; done) | simp [GoType.Bits, IntSize]

theorem toNat_digitChar (d : Nat) (h : d < 10) : (Char.ofNat (0x30 + d)).toNat = 0x30 + d := by
  interval_cases d <;> rfl

theorem isDigit_digitChar (d : Nat) (h : d < 10) : isDigit (Char.ofNat (0x30 + d)) = true := by
  simp only [isDigit, toNat_digitChar d h, decide_eq_true_eq]
  omega

theorem digitsValue_append (xs ys : List Char) (n : Nat) :
    digitsValue n (xs ++ ys) = digitsValue (digitsValue n xs) ys := by
  induction xs generalizing n with
  | nil => rfl
  | cons c cs ih => rw [List.cons_append, digitsValue_cons, digitsValue_cons, ih]

theorem natDigits_all_isDigit (fuel n : Nat) : (natDigits fuel n).all isDigit = true := by
  induction fuel generalizing n with
  | zero => simp [natDigits, isDigit_digitChar (n % 10) (Nat.mod_lt _ (by norm_num))]
  | succ fuel ih =>
    simp only [natDigits]
    split_ifs with h
    · simp [isDigit_digitChar n h]
    · simp only [List.all_append, ih, List.all_cons, List.all_nil, Bool.and_true, Bool.true_and]
      exact isDigit_digitChar (n % 10) (Nat.mod_lt _ (by norm_num))

theorem natDigits_ne_nil (fuel n : Nat) : natDigits fuel n ≠ [] := by
  cases fuel with
  | zero => simp [natDigits]
  | succ fuel =>
    simp only [natDigits]
    split_ifs <;> simp

theorem digitsValue_natDigits (fuel n : Nat) (h : n ≤ fuel) :
    digitsValue 0 (natDigits fuel n) = n := by
  induction fuel generalizing n with
  | zero =>
    have hn : n = 0 := by omega
    subst hn
    rfl
  | succ fuel ih =>
    simp only [natDigits]
    split_ifs with h10
    · rw [digitsValue_cons, digitsValue_nil, toNat_digitChar n h10]
      omega
    · rw [digitsValue_append, ih (n / 10) (by omega), digitsValue_cons, digitsValue_nil,
        toNat_digitChar (n % 10) (Nat.mod_lt _ (by norm_num))]
      omega

theorem isDigit_not_sign (c : Char) (h : isDigit c = true) : ¬ (c = '+' ∨ c = '-') := by
  simp only [isDigit, decide_eq_true_eq] at h
  rintro (rfl | rfl)
  · exact absurd h.1 (by decide)
  · exact absurd h.1 (by decide)

theorem isDigit_not_space (c : Char) (h : isDigit c = true) : isSpace c = false := by
  simp only [isDigit, decide_eq_true_eq] at h
  simp only [isSpace, Bool.or_eq_false_iff, Bool.and_eq_false_imp, beq_eq_false_iff_ne, ne_eq,
    decide_eq_true_eq, decide_eq_false_iff_not]
  omega

theorem intOfText_digits (ds : List Char) (hne : ds ≠ []) (hds : ds.all isDigit = true) :
    intOfText ⟨ds⟩ = some (digitsValue 0 ds : Int) := by
  cases ds with
  | nil => exact absurd rfl hne
  | cons c cs =>
    have hc : isDigit c = true := by
      simp only [List.all_cons, Bool.and_eq_true] at hds
      exact hds.1
    have hsign := isDigit_not_sign c hc
    have hminus : ¬ c = '-' := fun hm => hsign (Or.inr hm)
    have hite : (if c = '+' ∨ c = '-' then cs else c :: cs) = c :: cs := if_neg hsign
    rw [intOfText_cons ⟨c :: cs⟩ c cs rfl, hite, if_pos ⟨hne, hds⟩, if_neg hminus]

theorem intOfText_neg_digits (ds : List Char) (hne : ds ≠ []) (hds : ds.all isDigit = true) :
    intOfText ⟨'-' :: ds⟩ = some (-(digitsValue 0 ds : Int)) := by
  rw [intOfText_cons ⟨'-' :: ds⟩ '-' ds rfl]
  simp only [or_true, if_true]
  rw [if_pos ⟨hne, hds⟩]

theorem intOfText_formatInt (v : Int) : intOfText (formatInt v) = some v := by
  simp only [formatInt]
  split_ifs with hneg
  · rw [intOfText_neg_digits _ (natDigits_ne_nil _ _) (natDigits_all_isDigit _ _),
      digitsValue_natDigits _ _ (le_refl _)]
    congr 1
    omega
  · rw [intOfText_digits _ (natDigits_ne_nil _ _) (natDigits_all_isDigit _ _),
      digitsValue_natDigits _ _ (le_refl _)]
    congr 1
    omega

theorem intOfText_some_not_blank (s : String) (n : Int) (h : intOfText s = some n) :
    isBlank s = false := by
  cases hs : s.data with
  | nil => simp [intOfText, hs] at h
  | cons c cs =>
    rw [intOfText_cons s c cs hs] at h
    have hc : isSpace c = false := by
      by_cases hsign : c = '+' ∨ c = '-'
      · rcases hsign with rfl | rfl <;> decide
      · have hite : (if c = '+' ∨ c = '-' then cs else c :: cs) = c :: cs := if_neg hsign
        rw [hite] at h
        by_cases hwf : c :: cs ≠ [] ∧ (c :: cs).all isDigit = true
        · have hd : isDigit c = true := by
            have := hwf.2
            simp only [List.all_cons, Bool.and_eq_true] at this
            exact this.1
          exact isDigit_not_space c hd
        · rw [if_neg hwf] at h
          cases h
    simp [isBlank, hs, hc]

/-! ## Removing spaces and splitting at commas -/

theorem ReplaceAll_empty_data (s : String) (old : Char) :
    (ReplaceAll s old "").data = s.data.filter (fun c => decide (c ≠ old)) := by
  simp only [ReplaceAll]
  induction s.data with
  | nil => rfl
  | cons c cs ih =>
    rw [List.flatMap_cons, ih]
    by_cases h : c = old
    · simp [h]
    · simp [h]

theorem splitRunes_ne_nil (sep : Char) (l : List Char) : splitRunes sep l ≠ [] := by
  cases l with
  | nil => simp [splitRunes]
  | cons c cs =>
    simp only [splitRunes]
    split_ifs
    · simp
    · cases splitRunes sep cs <;> simp

theorem splitRunes_cons_ne (sep c : Char) (cs : List Char) (h : c ≠ sep) :
    ∃ seg segs, splitRunes sep cs = seg :: segs ∧
      splitRunes sep (c :: cs) = (c :: seg) :: segs := by
  cases hs : splitRunes sep cs with
  | nil => exact absurd hs (splitRunes_ne_nil sep cs)
  | cons seg segs =>
    refine ⟨seg, segs, rfl, ?_⟩
    simp only [splitRunes, if_neg h, hs]

theorem joinWith_splitRunes (sep : Char) (l : List Char) :
    joinWith sep (splitRunes sep l) = l := by
  induction l with
  | nil => rfl
  | cons c cs ih =>
    by_cases h : c = sep
    · simp only [splitRunes, if_pos h]
      cases hs : splitRunes sep cs with
      | nil => exact absurd hs (splitRunes_ne_nil sep cs)
      | cons seg segs =>
        rw [hs] at ih
        simp only [joinWith, List.nil_append, ih, h]
    · obtain ⟨seg, segs, hs, hc⟩ := splitRunes_cons_ne sep c cs h
      rw [hc]
      rw [hs] at ih
      cases segs with
      | nil =>
        simp only [joinWith] at ih ⊢
        rw [ih]
      | cons y rest =>
        simp only [joinWith] at ih ⊢
        rw [List.cons_append, ih]

theorem mem_splitRunes (sep : Char) (l seg : List Char) (hseg : seg ∈ splitRunes sep l) :
    sep ∉ seg ∧ ∀ c ∈ seg, c ∈ l := by
  induction l generalizing seg with
  | nil =>
    simp only [splitRunes, List.mem_singleton] at hseg
    subst hseg
    simp
  | cons c cs ih =>
    by_cases h : c = sep
    · simp only [splitRunes, if_pos h, List.mem_cons] at hseg
      rcases hseg with rfl | hseg
      · simp
      · obtain ⟨h1, h2⟩ := ih seg hseg
        exact ⟨h1, fun x hx => List.mem_cons_of_mem _ (h2 x hx)⟩
    · obtain ⟨seg0, segs, hs, hc⟩ := splitRunes_cons_ne sep c cs h
      rw [hc, List.mem_cons] at hseg
      have h0 := ih seg0 (by rw [hs]; exact List.mem_cons_self _ _)
      rcases hseg with rfl | hseg
      · refine ⟨?_, ?_⟩
        · intro hmem
          rcases List.mem_cons.mp hmem with heq | hmem
          · exact h heq.symm
          · exact h0.1 hmem
        · intro x hx
          rcases List.mem_cons.mp hx with rfl | hx
          · exact List.mem_cons_self _ _
          · exact List.mem_cons_of_mem _ (h0.2 x hx)
      · obtain ⟨h1, h2⟩ := ih seg (by rw [hs]; exact List.mem_cons_of_mem _ hseg)
        exact ⟨h1, fun x hx => List.mem_cons_of_mem _ (h2 x hx)⟩

theorem splitRunes_of_not_mem (sep : Char) (x : List Char) (hx : sep ∉ x) :
    splitRunes sep x = [x] := by
  induction x with
  | nil => rfl
  | cons c cs ih =>
    have hc : c ≠ sep := fun h => hx (by rw [h]; exact List.mem_cons_self _ _)
    have hcs : sep ∉ cs := fun h => hx (List.mem_cons_of_mem _ h)
    simp only [splitRunes, if_neg hc, ih hcs]

theorem splitRunes_append_sep (sep : Char) (x r : List Char) (hx : sep ∉ x) :
    splitRunes sep (x ++ sep :: r) = x :: splitRunes sep r := by
  induction x with
  | nil => simp only [List.nil_append, splitRunes, if_true]
  | cons c cs ih =>
    have hc : c ≠ sep := fun h => hx (by rw [h]; exact List.mem_cons_self _ _)
    have hcs : sep ∉ cs := fun h => hx (List.mem_cons_of_mem _ h)
    rw [List.cons_append]
    simp only [splitRunes, if_neg hc, ih hcs]

theorem splitRunes_joinWith (sep : Char) (segs : List (List Char)) (hne : segs ≠ [])
    (hsep : ∀ seg ∈ segs, sep ∉ seg) : splitRunes sep (joinWith sep segs) = segs := by
  induction segs with
  | nil => exact absurd rfl hne
  | cons x rest ih =>
    cases rest with
    | nil => exact splitRunes_of_not_mem sep x (hsep x (List.mem_cons_self _ _))
    | cons y rest =>
      simp only [joinWith]
      rw [splitRunes_append_sep sep x _ (hsep x (List.mem_cons_self _ _)),
        ih (by simp) (fun seg hseg => hsep seg (List.mem_cons_of_mem _ hseg))]

/-! ## The field step and the loop -/

theorem setEnvByType_eq {F : Type} (lib : FloatLib F) (os : Env) (field : Value F) (t : GoType)
    (k d : String) :
    setEnvByType lib os field t k d =
      if isBlank (getEnvFallback os k d) = true then .ok field
      else if t.Kind = .Bool then
        .ok (.bool ((getEnvFallback os k d == "1") || (ToLower (getEnvFallback os k d) == "true")))
      else if isIntKind t.Kind = true then
        match ParseInt (getEnvFallback os k d) 10 t.Bits with
        | .error err => .error err
        | .ok v => .ok (SetInt t v)
      else if isFloatKind t.Kind = true then
        match lib.ParseFloat (getEnvFallback os k d) t.Bits with
        | .error err => .error err
        | .ok v => .ok (SetFloat lib t v)
      else if t.Kind = .Slice then .ok (createSlice lib (getEnvFallback os k d) t)
      else if t.Kind = .String then .ok (.string (getEnvFallback os k d))
      else .ok field := by
  simp only [setEnvByType, len_TrimSpace_eq_zero]
  by_cases hb : isBlank (getEnvFallback os k d) = true
  · simp only [hb, if_true]
  · simp only [hb, if_false]
    generalize t.Kind = kind
    cases kind <;> simp [isIntKind, isFloatKind]

theorem Read_nil {F : Type} (lib : FloatLib F) (os : Env) (env : EnvReader) :
    Read lib os env [] = ([], none) := rfl

theorem Read_cons_error {F : Type} (lib : FloatLib F) (os : Env) (env : EnvReader)
    (slot : FieldSlot F) (rest : List (FieldSlot F)) (e : NumError)
    (h : readField lib os env slot = .error e) :
    Read lib os env (slot :: rest) = (slot :: rest, some e) := by
  simp only [Read, h]

theorem Read_cons_ok {F : Type} (lib : FloatLib F) (os : Env) (env : EnvReader)
    (slot : FieldSlot F) (rest : List (FieldSlot F)) (v : Value F)
    (h : readField lib os env slot = .ok v) :
    Read lib os env (slot :: rest) =
      ({ slot with value := v } :: (Read lib os env rest).1, (Read lib os env rest).2) := by
  simp only [Read, h]

theorem Read_append_ok {F : Type} (lib : FloatLib F) (os : Env) (env : EnvReader)
    (pre post : List (FieldSlot F)) (h : (Read lib os env pre).2 = none) :
    Read lib os env (pre ++ post) =
      ((Read lib os env pre).1 ++ (Read lib os env post).1, (Read lib os env post).2) := by
  induction pre with
  | nil => simp [Read_nil]
  | cons slot rest ih =>
    cases hs : readField lib os env slot with
    | error e => simp [Read_cons_error lib os env slot rest e hs] at h
    | ok v =>
      rw [Read_cons_ok lib os env slot rest v hs] at h
      rw [List.cons_append, Read_cons_ok lib os env slot (rest ++ post) v hs,
        Read_cons_ok lib os env slot rest v hs, ih h]
      simp

theorem Read_append_error {F : Type} (lib : FloatLib F) (os : Env) (env : EnvReader)
    (pre post : List (FieldSlot F)) (e : NumError) (h : (Read lib os env pre).2 = some e) :
    Read lib os env (pre ++ post) = ((Read lib os env pre).1 ++ post, some e) := by
  induction pre with
  | nil => simp [Read_nil] at h
  | cons slot rest ih =>
    cases hs : readField lib os env slot with
    | error e' =>
      rw [Read_cons_error lib os env slot rest e' hs] at h
      rw [List.cons_append, Read_cons_error lib os env slot (rest ++ post) e' hs,
        Read_cons_error lib os env slot rest e' hs]
      simp only [Option.some.injEq] at h
      simp [h]
    | ok v =>
      rw [Read_cons_ok lib os env slot rest v hs] at h
      rw [List.cons_append, Read_cons_ok lib os env slot (rest ++ post) v hs,
        Read_cons_ok lib os env slot rest v hs, ih h]
      simp

theorem Read_fst_length {F : Type} (lib : FloatLib F) (os : Env) (env : EnvReader)
    (fields : List (FieldSlot F)) : (Read lib os env fields).1.length = fields.length := by
  induction fields with
  | nil => rfl
  | cons slot rest ih =>
    cases hs : readField lib os env slot with
    | error e => rw [Read_cons_error lib os env slot rest e hs]
    | ok v =>
      rw [Read_cons_ok lib os env slot rest v hs]
      simp [ih]

theorem readField_eq {F : Type} (lib : FloatLib F) (os : Env) (env : EnvReader)
    (slot : FieldSlot F) :
    readField lib os env slot =
      if isBlank (rawValue os env slot.field) = true then .ok slot.value
      else if slot.field.Typ.Kind = .Bool then
        .ok (.bool ((rawValue os env slot.field == "1") ||
          (ToLower (rawValue os env slot.field) == "true")))
      else if isIntKind slot.field.Typ.Kind = true then
        match ParseInt (rawValue os env slot.field) 10 slot.field.Typ.Bits with
        | .error err => .error err
        | .ok v => .ok (SetInt slot.field.Typ v)
      else if isFloatKind slot.field.Typ.Kind = true then
        match lib.ParseFloat (rawValue os env slot.field) slot.field.Typ.Bits with
        | .error err => .error err
        | .ok v => .ok (SetFloat lib slot.field.Typ v)
      else if slot.field.Typ.Kind = .Slice then
        .ok (createSlice lib (rawValue os env slot.field) slot.field.Typ)
      else if slot.field.Typ.Kind = .String then .ok (.string (rawValue os env slot.field))
      else .ok slot.value := by
  simp only [readField, rawValue, setEnvByType_eq]

theorem readField_error_iff {F : Type} (lib : FloatLib F) (os : Env) (env : EnvReader)
    (slot : FieldSlot F) (e : NumError) :
    readField lib os env slot = .error e ↔ scalarParseError lib os env slot.field = some e := by
  rw [readField_eq, scalarParseError]
  by_cases hb : isBlank (rawValue os env slot.field) = true
  · simp [hb]
  · simp only [hb, if_false]
    by_cases hB : slot.field.Typ.Kind = .Bool
    · simp [hB, isIntKind, isFloatKind]
    · simp only [hB, if_false]
      by_cases hI : isIntKind slot.field.Typ.Kind = true
      · simp only [hI, if_true]
        cases ParseInt (rawValue os env slot.field) 10 slot.field.Typ.Bits <;> simp
      · simp only [hI, if_false]
        by_cases hFl : isFloatKind slot.field.Typ.Kind = true
        · simp only [hFl, if_true]
          cases lib.ParseFloat (rawValue os env slot.field) slot.field.Typ.Bits <;> simp
        · simp only [hFl, if_false]
          split_ifs <;> simp

theorem readField_ok_iff {F : Type} (lib : FloatLib F) (os : Env) (env : EnvReader)
    (slot : FieldSlot F) :
    (∃ v, readField lib os env slot = .ok v) ↔ scalarParseError lib os env slot.field = none := by
  cases h : readField lib os env slot with
  | error e =>
    have := (readField_error_iff lib os env slot e).mp h
    simp [this]
  | ok v =>
    cases h' : scalarParseError lib os env slot.field with
    | none => simp
    | some e =>
      have := (readField_error_iff lib os env slot e).mpr h'
      rw [h] at this
      cases this

theorem Read_snd_eq_some_iff {F : Type} (lib : FloatLib F) (os : Env) (env : EnvReader)
    (fields : List (FieldSlot F)) :
    (∃ e, (Read lib os env fields).2 = some e) ↔
      ∃ slot ∈ fields, ∃ e, scalarParseError lib os env slot.field = some e := by
  induction fields with
  | nil => simp [Read_nil]
  | cons slot rest ih =>
    cases hs : readField lib os env slot with
    | error e =>
      rw [Read_cons_error lib os env slot rest e hs]
      have := (readField_error_iff lib os env slot e).mp hs
      constructor
      · intro _
        exact ⟨slot, List.mem_cons_self _ _, e, this⟩
      · intro _
        exact ⟨e, rfl⟩
    | ok v =>
      rw [Read_cons_ok lib os env slot rest v hs]
      have hnone := (readField_ok_iff lib os env slot).mp ⟨v, hs⟩
      simp only [ih, List.mem_cons, exists_eq_or_imp, hnone, reduceCtorEq, exists_false,
        false_or]

theorem Read_at_ok {F : Type} (lib : FloatLib F) (os : Env) (env : EnvReader)
    (pre post : List (FieldSlot F)) (slot : FieldSlot F) (v : Value F)
    (hpre : (Read lib os env pre).2 = none) (hstep : readField lib os env slot = .ok v) :
    Read lib os env (pre ++ slot :: post) =
      ((Read lib os env pre).1 ++ { slot with value := v } :: (Read lib os env post).1,
        (Read lib os env post).2) := by
  rw [Read_append_ok lib os env pre _ hpre, Read_cons_ok lib os env slot post v hstep]

theorem Read_at_error {F : Type} (lib : FloatLib F) (os : Env) (env : EnvReader)
    (pre post : List (FieldSlot F)) (slot : FieldSlot F) (e : NumError)
    (hpre : (Read lib os env pre).2 = none) (hstep : readField lib os env slot = .error e) :
    Read lib os env (pre ++ slot :: post) = ((Read lib os env pre).1 ++ slot :: post, some e) := by
  rw [Read_append_ok lib os env pre _ hpre, Read_cons_error lib os env slot post e hstep]

theorem rawValue_of_Getenv (os : Env) (env : EnvReader) (f : StructField) (x : String)
    (hx : Getenv os (f.Tag.Get env.tag) = x) (hnb : isBlank x = false) :
    rawValue os env f = x := by
  rw [rawValue, getEnvFallback_eq, hx, hnb]
  rfl

theorem isIntKind_ne {k : Kind} (h : isIntKind k = true) :
    k ≠ .Bool ∧ isFloatKind k = false ∧ k ≠ .Slice ∧ k ≠ .String := by
  cases k <;> simp [isIntKind, isFloatKind] at h ⊢

theorem readField_int {F : Type} (lib : FloatLib F) (os : Env) (env : EnvReader)
    (slot : FieldSlot F) (hI : isIntKind slot.field.Typ.Kind = true) (n : Int)
    (hden : intOfText (rawValue os env slot.field) = some n) :
    readField lib os env slot =
      if -(2 : Int) ^ (slot.field.Typ.Bits - 1) ≤ n ∧ n ≤ 2 ^ (slot.field.Typ.Bits - 1) - 1 then
        .ok (.int n)
      else .error (rangeError "ParseInt" (rawValue os env slot.field)) := by
  have hbits : 2 ≤ slot.field.Typ.Bits ∧ slot.field.Typ.Bits ≤ 64 := by
    rcases isIntKind_Bits _ hI with h | h | h | h <;> omega
  have hnb := intOfText_some_not_blank _ n hden
  rw [readField_eq, hnb, if_neg (by simp), if_neg (isIntKind_ne hI).1, if_pos hI,
    ParseInt_denotes _ _ hbits.1 hbits.2 n hden]
  by_cases hr : -(2 : Int) ^ (slot.field.Typ.Bits - 1) ≤ n ∧
      n ≤ 2 ^ (slot.field.Typ.Bits - 1) - 1
  · simp only [hr, and_self, if_true, SetInt, truncInt_of_range _ (by omega) n hr.1 hr.2]
  · simp only [hr, if_false]

theorem readField_int_malformed {F : Type} (lib : FloatLib F) (os : Env) (env : EnvReader)
    (slot : FieldSlot F) (hI : isIntKind slot.field.Typ.Kind = true)
    (hnb : isBlank (rawValue os env slot.field) = false)
    (hden : intOfText (rawValue os env slot.field) = none) :
    ∃ e, readField lib os env slot = .error e := by
  have hbits : 2 ≤ slot.field.Typ.Bits ∧ slot.field.Typ.Bits ≤ 64 := by
    rcases isIntKind_Bits _ hI with h | h | h | h <;> omega
  obtain ⟨e, he⟩ := ParseInt_malformed _ _ hbits.1 hbits.2 hden
  refine ⟨e, ?_⟩
  rw [readField_eq, hnb, if_neg (by simp), if_neg (isIntKind_ne hI).1, if_pos hI, he]

theorem zipWith_replicate_map {α β γ : Type} (f : α → β → γ) (z : α) (l : List β) :
    List.zipWith f (List.replicate l.length z) l = l.map (f z) := by
  induction l with
  | nil => rfl
  | cons x xs ih => simp only [List.length_cons, List.replicate_succ, List.zipWith_cons_cons,
      ih, List.map_cons]

theorem createSlice_eq {F : Type} (lib : FloatLib F) (envInfo : String) (t : GoType) :
    createSlice lib envInfo t =
      .slice ((Split (ReplaceAll envInfo ' ' "") ',').map
        (sliceElem lib t (zeroValue lib t.Elem))) := by
  simp only [createSlice, MakeSlice, zipWith_replicate_map]

theorem readField_slice {F : Type} (lib : FloatLib F) (os : Env) (env : EnvReader)
    (slot : FieldSlot F) (hK : slot.field.Typ.Kind = .Slice)
    (hnb : isBlank (rawValue os env slot.field) = false) :
    readField lib os env slot =
      .ok (createSlice lib (rawValue os env slot.field) slot.field.Typ) := by
  rw [readField_eq, hnb, if_neg (by simp), if_neg (by rw [hK]; simp),
    if_neg (by rw [hK]; simp [isIntKind]), if_neg (by rw [hK]; simp [isFloatKind]), if_pos hK]

theorem sliceElem_string {F : Type} (lib : FloatLib F) (z : Value F) (seg : String) :
    sliceElem lib (.slice .string) z seg = .string seg := by
  simp only [sliceElem, if_true]

theorem sliceElem_int {F : Type} (lib : FloatLib F) (seg : String) :
    sliceElem lib (.slice .int) (zeroValue lib GoType.int) seg = .int (intSlotOf seg) := by
  have hty : (GoType.slice GoType.int = GoType.slice GoType.string) = False := by simp
  simp only [sliceElem, hty, if_false, if_true, GoType.Bits, IntSize, intSlotOf]
  cases hd : intOfText seg with
  | none =>
    obtain ⟨e, he⟩ := ParseInt_malformed seg 64 (by norm_num) (by norm_num) hd
    rw [he]
    rfl
  | some n =>
    rw [ParseInt_denotes seg 64 (by norm_num) (by norm_num) n hd]
    by_cases hr : -(2 : Int) ^ (64 - 1) ≤ n ∧ n ≤ 2 ^ (64 - 1) - 1
    · rw [if_pos hr]
      simp only [SetInt, GoType.Bits, IntSize,
        truncInt_of_range 64 (by norm_num) n hr.1 hr.2]
      rw [if_pos (by simpa using hr)]
    · rw [if_neg hr]
      simp only []
      rw [if_neg (by simpa using hr)]
      rfl

theorem sliceElem_unsupported {F : Type} (lib : FloatLib F) (t : GoType) (z : Value F)
    (seg : String) (h1 : t ≠ .slice .string) (h2 : t ≠ .slice .int) (h3 : t ≠ .slice .float32)
    (h4 : t ≠ .slice .float64) : sliceElem lib t z seg = z := by
  simp only [sliceElem, h1, h2, h3, h4, if_false]

theorem rawValue_of_unset (os : Env) (env : EnvReader) (f : StructField)
    (h : LookupEnv os (f.Tag.Get env.tag) = none) :
    rawValue os env f = f.Tag.Get env.tagDefault := by
  rw [rawValue, getEnvFallback_eq, Getenv, h]
  rfl

theorem readField_string {F : Type} (lib : FloatLib F) (os : Env) (env : EnvReader)
    (slot : FieldSlot F) (hS : slot.field.Typ.Kind = .String)
    (hnb : isBlank (rawValue os env slot.field) = false) :
    readField lib os env slot = .ok (.string (rawValue os env slot.field)) := by
  rw [readField_eq, hnb, if_neg (by simp), if_neg (by rw [hS]; simp),
    if_neg (by rw [hS]; simp [isIntKind]), if_neg (by rw [hS]; simp [isFloatKind]),
    if_neg (by rw [hS]; simp), if_pos hS]

/-! ## Tags -/

theorem Get_filter_ne (tag : StructTag) (name key : String) (h : key ≠ name) :
    StructTag.Get (tag.filter (fun kv => decide (kv.1 ≠ name))) key = StructTag.Get tag key := by
  simp only [StructTag.Get]
  by_cases hk : key.data.length = 0
  · simp only [hk, if_true]
  · simp only [hk, if_false]
    congr 2
    induction tag with
    | nil => rfl
    | cons kv rest ih =>
      by_cases hn : kv.1 = name
      · have hkv : ¬ kv.1 = key := fun e => h (e.symm.trans hn)
        have hf : decide (kv.1 ≠ name) = false := by simpa using hn
        have hd : decide (kv.1 = key) = false := by simpa using hkv
        rw [List.filter_cons, hf, List.find?_cons, hd]
        simpa using ih
      · have hf : decide (kv.1 ≠ name) = true := by simpa using hn
        rw [List.filter_cons, hf]
        simp only [if_true, List.find?_cons, ih]

theorem Get_of_no_entry (tag : StructTag) (key : String) (h : ∀ kv ∈ tag, kv.1 ≠ key) :
    StructTag.Get tag key = "" := by
  simp only [StructTag.Get]
  split_ifs
  · rfl
  · have hnone : tag.find? (fun kv => decide (kv.1 = key)) = none := by
      rw [List.find?_eq_none]
      intro kv hkv
      simpa using h kv hkv
    rw [hnone]
    rfl

theorem readField_eraseTag {F : Type} (lib : FloatLib F) (os : Env) (env : EnvReader)
    (name : String) (slot : FieldSlot F) (h1 : env.tag ≠ name) (h2 : env.tagDefault ≠ name) :
    readField lib os env (eraseTag name slot) = readField lib os env slot := by
  simp only [readField, eraseTag, Get_filter_ne _ _ _ h1, Get_filter_ne _ _ _ h2]

theorem Read_eraseTag {F : Type} (lib : FloatLib F) (os : Env) (env : EnvReader)
    (name : String) (fields : List (FieldSlot F)) (h1 : env.tag ≠ name)
    (h2 : env.tagDefault ≠ name) :
    Read lib os env (fields.map (eraseTag name)) =
      ((Read lib os env fields).1.map (eraseTag name), (Read lib os env fields).2) := by
  induction fields with
  | nil => rfl
  | cons slot rest ih =>
    have hstep := readField_eraseTag lib os env name slot h1 h2
    cases hs : readField lib os env slot with
    | error e =>
      rw [hs] at hstep
      rw [List.map_cons, Read_cons_error lib os env _ _ e hstep,
        Read_cons_error lib os env slot rest e hs]
      rfl
    | ok v =>
      rw [hs] at hstep
      rw [List.map_cons, Read_cons_ok lib os env _ _ v hstep,
        Read_cons_ok lib os env slot rest v hs, ih]
      rfl

/-! ## The reader as state, and reading twice -/

theorem ReadLoader_eq {F : Type} (lib : FloatLib F) (os : Env) (env : EnvReader)
    (fields : List (FieldSlot F)) :
    ReadLoader lib os env fields = (env, Read lib os env fields) := by
  induction fields with
  | nil => rfl
  | cons slot rest ih =>
    cases hs : readField lib os env slot with
    | error e =>
      simp only [ReadLoader, readFieldLoader, hs, Read_cons_error lib os env slot rest e hs]
    | ok v =>
      simp only [ReadLoader, readFieldLoader, hs, ih, Read_cons_ok lib os env slot rest v hs]

theorem readField_set_value {F : Type} (lib : FloatLib F) (os : Env) (env : EnvReader)
    (slot : FieldSlot F) (w : Value F) :
    (readField lib os env slot = .ok slot.value ∧
        readField lib os env { slot with value := w } = .ok w) ∨
      readField lib os env { slot with value := w } = readField lib os env slot := by
  rw [readField_eq lib os env slot, readField_eq lib os env { slot with value := w }]
  simp only []
  split_ifs
  all_goals first
    | exact Or.inl ⟨rfl, rfl⟩
    | exact Or.inr rfl

theorem readField_idempotent {F : Type} (lib : FloatLib F) (os : Env) (env : EnvReader)
    (slot : FieldSlot F) (v : Value F) (h : readField lib os env slot = .ok v) :
    readField lib os env { slot with value := v } = .ok v := by
  rcases readField_set_value lib os env slot v with ⟨h1, h2⟩ | h2
  · exact h2
  · rw [h2, h]

/-! ## Texts padded with spaces -/

theorem intOfText_some_chars (s : String) (n : Int) (h : intOfText s = some n) :
    s.data ≠ [] ∧ ∀ c ∈ s.data, c = '+' ∨ c = '-' ∨ isDigit c = true := by
  cases hs : s.data with
  | nil => simp [intOfText, hs] at h
  | cons c cs =>
    rw [intOfText_cons s c cs hs] at h
    refine ⟨by simp, ?_⟩
    by_cases hsign : c = '+' ∨ c = '-'
    · simp only [hsign, if_true] at h
      by_cases hwf : cs ≠ [] ∧ cs.all isDigit = true
      · intro x hx
        rcases List.mem_cons.mp hx with rfl | hx
        · rcases hsign with h1 | h1
          · exact Or.inl h1
          · exact Or.inr (Or.inl h1)
        · exact Or.inr (Or.inr (List.all_eq_true.mp hwf.2 x hx))
      · rw [if_neg hwf] at h
        cases h
    · have hite : (if c = '+' ∨ c = '-' then cs else c :: cs) = c :: cs := if_neg hsign
      rw [hite] at h
      by_cases hwf : c :: cs ≠ [] ∧ (c :: cs).all isDigit = true
      · intro x hx
        exact Or.inr (Or.inr (List.all_eq_true.mp hwf.2 x hx))
      · rw [if_neg hwf] at h
        cases h

theorem intOfText_some_no_space_comma (s : String) (n : Int) (h : intOfText s = some n) :
    ' ' ∉ s.data ∧ ',' ∉ s.data := by
  have hch := (intOfText_some_chars s n h).2
  constructor
  · intro hm
    rcases hch _ hm with h1 | h1 | h1
    · exact absurd h1 (by decide)
    · exact absurd h1 (by decide)
    · exact absurd h1 (by decide)
  · intro hm
    rcases hch _ hm with h1 | h1 | h1
    · exact absurd h1 (by decide)
    · exact absurd h1 (by decide)
    · exact absurd h1 (by decide)

theorem intOfText_of_space_mem (s : String) (h : ' ' ∈ s.data) : intOfText s = none := by
  cases hd : intOfText s with
  | none => rfl
  | some n => exact absurd h (intOfText_some_no_space_comma s n hd).1

theorem space_mem_padded (l r : Nat) (t : String) (h : 0 < l + r) : ' ' ∈ (padded l t r).data := by
  have hrep : ∀ k : Nat, k ≠ 0 → ' ' ∈ List.replicate k ' ' := fun k hk =>
    List.mem_replicate.mpr ⟨hk, rfl⟩
  simp only [padded, List.mem_append]
  by_cases hl : l = 0
  · exact Or.inr (hrep r (by omega))
  · exact Or.inl (Or.inl (hrep l hl))

theorem isBlank_false_of_mem (s : String) (c : Char) (hc : c ∈ s.data)
    (hns : isSpace c = false) : isBlank s = false := by
  cases hb : isBlank s with
  | false => rfl
  | true =>
    have := List.all_eq_true.mp hb c hc
    rw [hns] at this
    cases this

theorem exists_nonspace_of_intOfText (t : String) (n : Int) (h : intOfText t = some n) :
    ∃ c ∈ t.data, isSpace c = false := by
  have hnb := intOfText_some_not_blank t n h
  by_contra hcon
  have hall : isBlank t = true := by
    simp only [isBlank, List.all_eq_true]
    intro c hc
    by_contra hsp
    exact hcon ⟨c, hc, by simpa using hsp⟩
  rw [hall] at hnb
  cases hnb

theorem mem_padded (l r : Nat) (t : String) (c : Char) (hc : c ∈ t.data) :
    c ∈ (padded l t r).data := by
  simp only [padded, List.mem_append]
  exact Or.inl (Or.inr hc)

theorem padded_filter (l r : Nat) (t : String) (ht : ' ' ∉ t.data) :
    (padded l t r).data.filter (fun c => decide (c ≠ ' ')) = t.data := by
  have hrep : ∀ k : Nat, (List.replicate k ' ').filter (fun c => decide (c ≠ ' ')) = [] := by
    intro k
    rw [List.filter_eq_nil_iff]
    intro a ha
    simp [(List.mem_replicate.mp ha).2]
  have hkeep : t.data.filter (fun c => decide (c ≠ ' ')) = t.data := by
    rw [List.filter_eq_self]
    intro a ha
    have : a ≠ ' ' := fun e => ht (e ▸ ha)
    simpa using this
  simp only [padded, List.filter_append, hrep, hkeep, List.nil_append, List.append_nil]

theorem comma_not_mem_padded (l r : Nat) (t : String) (ht : ',' ∉ t.data) :
    ',' ∉ (padded l t r).data := by
  simp only [padded, List.mem_append, List.mem_replicate, not_or]
  exact ⟨⟨fun h => absurd h.2 (by decide), ht⟩, fun h => absurd h.2 (by decide)⟩

theorem filter_joinWith (segs : List (List Char)) :
    (joinWith ',' segs).filter (fun c => decide (c ≠ ' ')) =
      joinWith ',' (segs.map (List.filter (fun c => decide (c ≠ ' ')))) := by
  induction segs with
  | nil => rfl
  | cons x rest ih =>
    cases rest with
    | nil => rfl
    | cons y rest =>
      simp only [joinWith, List.map_cons] at ih ⊢
      rw [List.filter_append, List.filter_cons, ih]
      simp

theorem mem_joinWith (sep : Char) (segs : List (List Char)) (seg : List Char) (c : Char)
    (hseg : seg ∈ segs) (hc : c ∈ seg) : c ∈ joinWith sep segs := by
  induction segs with
  | nil => cases hseg
  | cons x rest ih =>
    cases rest with
    | nil =>
      rcases List.mem_cons.mp hseg with rfl | h
      · exact hc
      · cases h
    | cons y rest =>
      simp only [joinWith, List.mem_append, List.mem_cons]
      rcases List.mem_cons.mp hseg with rfl | h
      · exact Or.inl hc
      · exact Or.inr (Or.inr (ih h))

theorem Split_of_joined (raw : String) (segs : List String) (hne : segs ≠ [])
    (hcomma : ∀ s ∈ segs, ',' ∉ s.data)
    (hraw : raw.data = joinWith ',' (segs.map String.data)) :
    Split (ReplaceAll raw ' ' "") ',' =
      segs.map fun s => ⟨s.data.filter (fun c => decide (c ≠ ' '))⟩ := by
  simp only [Split, ReplaceAll_empty_data, hraw, filter_joinWith]
  rw [splitRunes_joinWith]
  · simp only [List.map_map]
    rfl
  · simpa using hne
  · intro seg hseg
    simp only [List.map_map, List.mem_map, Function.comp] at hseg
    obtain ⟨s, hs, rfl⟩ := hseg
    intro hm
    exact hcomma s hs (List.mem_of_mem_filter hm)

/-! ## Populated fields -/

theorem splitRunes_length (sep : Char) (l : List Char) :
    (splitRunes sep l).length = 1 + l.count sep := by
  induction l with
  | nil => rfl
  | cons c cs ih =>
    by_cases h : c = sep
    · simp only [splitRunes, if_pos h, List.length_cons, ih, List.count_cons, h, beq_self_eq_true,
        if_true]
      omega
    · obtain ⟨seg, segs, hs, hc⟩ := splitRunes_cons_ne sep c cs h
      rw [hc]
      rw [hs] at ih
      have hbeq : (c == sep) = false := by simpa using h
      simp only [List.length_cons, List.count_cons, hbeq] at ih ⊢
      simpa using ih

theorem count_comma_filter (l : List Char) :
    (l.filter (fun c => decide (c ≠ ' '))).count ',' = l.count ',' := by
  induction l with
  | nil => rfl
  | cons c cs ih =>
    by_cases h : c = ' '
    · subst h
      have : (' ' == ',') = false := by decide
      simp only [List.filter_cons, ne_eq, not_true_eq_false, decide_False, Bool.false_eq_true,
        if_false, ih, List.count_cons, this]
      rfl
    · have hd : decide (c ≠ ' ') = true := by simpa using h
      rw [List.filter_cons, hd]
      simp only [if_true, List.count_cons, ih]

theorem Split_length (raw : String) :
    (Split (ReplaceAll raw ' ' "") ',').length = 1 + raw.data.count ',' := by
  simp only [Split, List.length_map, ReplaceAll_empty_data, splitRunes_length,
    count_comma_filter]

theorem isSupportedType_cases (t : GoType) (h : isSupportedType t = true) :
    t.Kind = .Bool ∨ isIntKind t.Kind = true ∨ isFloatKind t.Kind = true ∨ t.Kind = .String ∨
      t.Kind = .Slice := by
  simp only [isSupportedType, decide_eq_true_eq] at h
  rcases h with h | h | h | h | h | h | h | h
  · exact Or.inl h
  · exact Or.inr (Or.inl h)
  · exact Or.inr (Or.inr (Or.inl h))
  · exact Or.inr (Or.inr (Or.inr (Or.inl h)))
  all_goals
    right; right; right; right
    rw [h]
    rfl

theorem readField_of_supported {F : Type} (lib : FloatLib F) (os os2 : Env)
    (env env2 : EnvReader) (slot slot2 : FieldSlot F)
    (hsupp : isSupportedType slot.field.Typ = true)
    (hnb : isBlank (rawValue os env slot.field) = false)
    (hT : slot2.field.Typ = slot.field.Typ)
    (hraw : rawValue os2 env2 slot2.field = rawValue os env slot.field) :
    readField lib os2 env2 slot2 = readField lib os env slot := by
  have hsupp' := isSupportedType_cases _ hsupp
  rw [readField_eq lib os env slot, readField_eq lib os2 env2 slot2, hT, hraw, hnb]
  simp only [Bool.false_eq_true, if_false]
  generalize slot.field.Typ.Kind = kind at hsupp' ⊢
  rcases hsupp' with h | h | h | h | h
  · subst h
    simp only [if_true]
  · have hB : ¬ kind = .Bool := (isIntKind_ne h).1
    simp only [hB, h, if_true, if_false]
  · have hB : ¬ kind = .Bool := by
      intro hB
      rw [hB] at h
      cases h
    have hI : ¬ isIntKind kind = true := by
      intro hI
      have := (isIntKind_ne hI).2.1
      rw [this] at h
      cases h
    simp only [hB, hI, h, if_true, if_false]
  · subst h
    simp only [isIntKind, isFloatKind, reduceCtorEq, Bool.false_eq_true, if_true, if_false]
  · subst h
    simp only [isIntKind, isFloatKind, reduceCtorEq, Bool.false_eq_true, if_true, if_false]

/-! ## Scalar floats -/

theorem isFloatKind_ne {k : Kind} (h : isFloatKind k = true) :
    k ≠ .Bool ∧ isIntKind k = false ∧ k ≠ .Slice ∧ k ≠ .String := by
  cases k <;> simp [isIntKind, isFloatKind] at h ⊢

theorem isFloatKind_Bits (t : GoType) (h : isFloatKind t.Kind = true) :
    t.Bits = if t.Kind = .Float32 then 32 else 64 := by
  induction t with
  | named name u ih => exact ih h
  | composite k descr => cases k <;> simp [GoType.Kind, isFloatKind] at h
  | slice e _ => simp [GoType.Kind, isFloatKind] at h
  | _ => first | (simp [GoType.Kind, isFloatKind] at h; done) | simp [GoType.Bits, GoType.Kind]

theorem readField_float {F : Type} (lib : FloatLib F) (os : Env) (env : EnvReader)
    (slot : FieldSlot F) (hFl : isFloatKind slot.field.Typ.Kind = true)
    (hnb : isBlank (rawValue os env slot.field) = false) (f : F)
    (hp : lib.ParseFloat (rawValue os env slot.field) slot.field.Typ.Bits = .ok f) :
    readField lib os env slot =
      .ok (.float (if slot.field.Typ.Kind = .Float32 then lib.toFloat32 f else f)) := by
  have hne := isFloatKind_ne hFl
  have hI : ¬ isIntKind slot.field.Typ.Kind = true := by simp [hne.2.1]
  rw [readField_eq, hnb, if_neg (by simp), if_neg hne.1, if_neg hI, if_pos hFl, hp]
  simp only [SetFloat]
  split_ifs <;> rfl

/-! ## The tests of the repository, replayed on the model -/

theorem TestReader_replay :
    (Read decimalLib [("IDENV", "2")] testReader testUser).2 = none ∧
    (Read decimalLib [("IDENV", "2")] testReader testUser).1.map (fun slot => slot.value) =
      testUserExpected := by
  decide

theorem TestReaderFailInt_replay :
    (Read decimalLib [("IDENV", "hello")] testReader testUser).2 =
      some (syntaxError "ParseInt" "hello") := by
  decide

theorem TestReaderFailFloat_replay :
    (Read decimalLib [("IDENV", ""), ("SIZE", "AOSFJOEPWF OAS DDSA FJIODSA FIO DASIOFJ 2!!")]
      testReader testUser).2 =
      some (syntaxError "ParseFloat" "AOSFJOEPWF OAS DDSA FJIODSA FIO DASIOFJ 2!!") := by
  decide

theorem TestTagName_replay :
    (testReader.SetTagName "environ").GetTagName = "environ" ∧
    (testReader.SetTagNameDefault "environ-default").GetTagNameDefault = "environ-default" := by
  decide

/-! ## Claims -/

/-- C1. Raw-value resolution: the resolved raw value is the environment's value for the lookup
key when that value is present and has a character that is not white space; in every other case
(absent, empty, all white space) it is the default text itself, whatever the environment holds
under a variable named like the default text. -/
theorem getEnvFallback_resolution (os : Env) (lookupKey defaultText : String) :
    getEnvFallback os lookupKey defaultText =
      match LookupEnv os lookupKey with
      | some v => if isBlank v then defaultText else v
      | none => defaultText := by
  rw [getEnvFallback_eq, Getenv]
  cases LookupEnv os lookupKey with
  | none => simp [isBlank]
  | some v => simp

/-- C2. Error characterisation of `Read`: an error is returned exactly when some field is a
scalar signed integer or a scalar float whose resolved raw value is not blank and does not parse
at the bit width of the field; a struct without scalar integer and float fields never makes
`Read` fail. -/
theorem Read_error_iff_scalar_parse_failure {F : Type} (lib : FloatLib F) (os : Env)
    (env : EnvReader) (fields : List (FieldSlot F)) :
    ((∃ e, (Read lib os env fields).2 = some e) ↔
      ∃ slot ∈ fields,
        isBlank (rawValue os env slot.field) = false ∧
        ((isIntKind slot.field.Typ.Kind = true ∧
            ∃ e, ParseInt (rawValue os env slot.field) 10 slot.field.Typ.Bits = .error e) ∨
         (isFloatKind slot.field.Typ.Kind = true ∧
            ∃ e, lib.ParseFloat (rawValue os env slot.field) slot.field.Typ.Bits = .error e))) ∧
    ((∀ slot ∈ fields,
        isIntKind slot.field.Typ.Kind = false ∧ isFloatKind slot.field.Typ.Kind = false) →
      (Read lib os env fields).2 = none) := by
  have key : ∀ f : StructField, (∃ e, scalarParseError lib os env f = some e) ↔
      (isBlank (rawValue os env f) = false ∧
        ((isIntKind f.Typ.Kind = true ∧
            ∃ e, ParseInt (rawValue os env f) 10 f.Typ.Bits = .error e) ∨
         (isFloatKind f.Typ.Kind = true ∧
            ∃ e, lib.ParseFloat (rawValue os env f) f.Typ.Bits = .error e))) := by
    intro f
    have hex : ∀ k : Kind, isIntKind k = true → isFloatKind k = false := by
      intro k; cases k <;> simp [isIntKind, isFloatKind]
    rw [scalarParseError]
    by_cases hb : isBlank (rawValue os env f) = true
    · simp [hb]
    · simp only [hb, if_false, Bool.not_eq_true, true_and]
      by_cases hI : isIntKind f.Typ.Kind = true
      · simp only [hI, if_true, true_and, hex _ hI, Bool.false_eq_true, false_and, or_false]
        cases ParseInt (rawValue os env f) 10 f.Typ.Bits <;> simp
      · simp only [hI, if_false, false_and, false_or]
        by_cases hFl : isFloatKind f.Typ.Kind = true
        · simp only [hFl, if_true, true_and]
          cases lib.ParseFloat (rawValue os env f) f.Typ.Bits <;> simp
        · simp [hFl]
  have main := Read_snd_eq_some_iff lib os env fields
  simp only [key] at main
  refine ⟨main, ?_⟩
  intro hall
  cases hr : (Read lib os env fields).2 with
  | none => rfl
  | some e =>
    obtain ⟨slot, hmem, _, hk⟩ := main.mp ⟨e, hr⟩
    have := hall slot hmem
    rcases hk with ⟨hI, _⟩ | ⟨hFl, _⟩
    · rw [this.1] at hI; cases hI
    · rw [this.2] at hFl; cases hFl

/-- C3. Partial mutation on error: when `Read` fails with `e`, the struct splits into the fields
before the first field whose scalar parse fails, that field, and the fields after it; `e` is
the error of that field; that field and every later field keep their values, and the earlier
fields are exactly as a successful `Read` over just that prefix leaves them. -/
theorem Read_error_first_failure {F : Type} (lib : FloatLib F) (os : Env) (env : EnvReader)
    (fields : List (FieldSlot F)) (e : NumError) (h : (Read lib os env fields).2 = some e) :
    ∃ pre slot post, fields = pre ++ slot :: post ∧
      (∀ s ∈ pre, scalarParseError lib os env s.field = none) ∧
      scalarParseError lib os env slot.field = some e ∧
      readField lib os env slot = .error e ∧
      (Read lib os env pre).2 = none ∧
      (Read lib os env fields).1 = (Read lib os env pre).1 ++ slot :: post := by
  induction fields with
  | nil => simp [Read_nil] at h
  | cons slot rest ih =>
    cases hs : readField lib os env slot with
    | error e' =>
      rw [Read_cons_error lib os env slot rest e' hs] at h
      have he : e' = e := by simpa using h
      subst he
      refine ⟨[], slot, rest, rfl, ?_, (readField_error_iff lib os env slot e').mp hs, hs, rfl, ?_⟩
      · intro s hmem
        cases hmem
      · rw [Read_cons_error lib os env slot rest e' hs]
        rfl
    | ok v =>
      rw [Read_cons_ok lib os env slot rest v hs] at h
      obtain ⟨pre, bad, post, hsplit, hpre, hbad, hstep, hok, hfst⟩ := ih h
      refine ⟨slot :: pre, bad, post, by rw [hsplit]; rfl, ?_, hbad, hstep, ?_, ?_⟩
      · intro s hmem
        rcases List.mem_cons.mp hmem with rfl | hmem
        · exact (readField_ok_iff lib os env s).mp ⟨v, hs⟩
        · exact hpre s hmem
      · rw [Read_cons_ok lib os env slot pre v hs]
        exact hok
      · rw [Read_cons_ok lib os env slot rest v hs, Read_cons_ok lib os env slot pre v hs, hfst]
        rfl

/-- Instance of C3 on the test `TestReaderFailInt`: with `IDENV=hello` the read of the test
struct fails at `IdEnv` and the struct is left as it was. -/
theorem Read_error_first_failure_witness :
    Read decimalLib [("IDENV", "hello")] testReader testUser =
        (testUser, some (syntaxError "ParseInt" "hello")) ∧
    ∃ pre slot post, testUser = pre ++ slot :: post ∧
      (∀ s ∈ pre, scalarParseError decimalLib [("IDENV", "hello")] testReader s.field = none) ∧
      scalarParseError decimalLib [("IDENV", "hello")] testReader slot.field =
        some (syntaxError "ParseInt" "hello") ∧
      readField decimalLib [("IDENV", "hello")] testReader slot =
        .error (syntaxError "ParseInt" "hello") ∧
      (Read decimalLib [("IDENV", "hello")] testReader pre).2 = none ∧
      (Read decimalLib [("IDENV", "hello")] testReader testUser).1 =
        (Read decimalLib [("IDENV", "hello")] testReader pre).1 ++ slot :: post :=
  ⟨by decide,
    Read_error_first_failure decimalLib [("IDENV", "hello")] testReader testUser
      (syntaxError "ParseInt" "hello") (by decide)⟩

/-- C4. Skip on blank: a field of any type whose resolved raw value is blank produces no error
and keeps its value; wherever it stands in the struct, `Read` leaves it at its position with
its pre-call value, and the outcome of `Read` is that of the struct without the field. -/
theorem Read_skips_blank_field {F : Type} (lib : FloatLib F) (os : Env) (env : EnvReader)
    (pre post : List (FieldSlot F)) (slot : FieldSlot F)
    (hb : isBlank (rawValue os env slot.field) = true) :
    readField lib os env slot = .ok slot.value ∧
    (∃ pre' post', pre'.length = pre.length ∧
      (Read lib os env (pre ++ slot :: post)).1 = pre' ++ slot :: post') ∧
    (Read lib os env (pre ++ slot :: post)).2 = (Read lib os env (pre ++ post)).2 := by
  have hstep : readField lib os env slot = .ok slot.value := by
    rw [readField_eq, if_pos hb]
  have hcons : Read lib os env (slot :: post) =
      (slot :: (Read lib os env post).1, (Read lib os env post).2) :=
    Read_cons_ok lib os env slot post slot.value hstep
  refine ⟨hstep, ?_, ?_⟩
  · cases hp : (Read lib os env pre).2 with
    | none =>
      refine ⟨(Read lib os env pre).1, (Read lib os env post).1, Read_fst_length lib os env pre, ?_⟩
      rw [Read_append_ok lib os env pre _ hp, hcons]
    | some e =>
      refine ⟨(Read lib os env pre).1, post, Read_fst_length lib os env pre, ?_⟩
      rw [Read_append_error lib os env pre _ e hp]
  · cases hp : (Read lib os env pre).2 with
    | none =>
      rw [Read_append_ok lib os env pre _ hp, Read_append_ok lib os env pre _ hp, hcons]
    | some e =>
      rw [Read_append_error lib os env pre _ e hp, Read_append_error lib os env pre _ e hp]

/-- Instance of C4 on the test `TestReader`: the untagged field `Email` resolves to a blank raw
value and keeps `john@example`. -/
theorem Read_skips_blank_field_witness :
    isBlank (rawValue [("IDENV", "2")] testReader userEmail.field) = true ∧
    readField decimalLib [("IDENV", "2")] testReader userEmail = .ok (.string "john@example") ∧
    (Read decimalLib [("IDENV", "2")] testReader (userBeforeEmail ++ userEmail :: [])).2 =
      (Read decimalLib [("IDENV", "2")] testReader (userBeforeEmail ++ [])).2 :=
  ⟨by decide,
    (Read_skips_blank_field decimalLib [("IDENV", "2")] testReader userBeforeEmail []
      userEmail (by decide)).1,
    (Read_skips_blank_field decimalLib [("IDENV", "2")] testReader userBeforeEmail []
      userEmail (by decide)).2.2⟩

/-- C5. Round trip for scalars.  In a struct whose earlier fields are read without error: a
signed integer field (its width is 8, 16, 32 or 64) whose environment variable holds the
base-10 text of an integer `v` within the range of that width ends up equal to `v`; a bool
field reads `true` from "true" and `false` from "false"; a string field reads any non-blank
text back unchanged; a float field (its width is 32 or 64) whose environment variable holds a
non-blank text that `ParseFloat` reads as `f` at that width ends up equal to `f`, converted to
`float32` for a 32-bit field.  In each case the field adds no error to the outcome of
`Read`. -/
theorem Read_scalar_round_trip {F : Type} (lib : FloatLib F) (os : Env) (env : EnvReader)
    (pre post : List (FieldSlot F)) (slot : FieldSlot F)
    (hpre : (Read lib os env pre).2 = none) :
    (isIntKind slot.field.Typ.Kind = true →
      (slot.field.Typ.Bits = 8 ∨ slot.field.Typ.Bits = 16 ∨ slot.field.Typ.Bits = 32 ∨
        slot.field.Typ.Bits = 64) ∧
      ∀ v : Int, -(2 : Int) ^ (slot.field.Typ.Bits - 1) ≤ v →
        v ≤ 2 ^ (slot.field.Typ.Bits - 1) - 1 →
        Getenv os (slot.field.Tag.Get env.tag) = formatInt v →
        Read lib os env (pre ++ slot :: post) =
          ((Read lib os env pre).1 ++ { slot with value := .int v } :: (Read lib os env post).1,
            (Read lib os env post).2)) ∧
    (slot.field.Typ.Kind = .Bool →
      (Getenv os (slot.field.Tag.Get env.tag) = "true" →
        Read lib os env (pre ++ slot :: post) =
          ((Read lib os env pre).1 ++ { slot with value := .bool true } ::
            (Read lib os env post).1, (Read lib os env post).2)) ∧
      (Getenv os (slot.field.Tag.Get env.tag) = "false" →
        Read lib os env (pre ++ slot :: post) =
          ((Read lib os env pre).1 ++ { slot with value := .bool false } ::
            (Read lib os env post).1, (Read lib os env post).2))) ∧
    (slot.field.Typ.Kind = .String →
      ∀ str : String, isBlank str = false → Getenv os (slot.field.Tag.Get env.tag) = str →
        Read lib os env (pre ++ slot :: post) =
          ((Read lib os env pre).1 ++ { slot with value := .string str } ::
            (Read lib os env post).1, (Read lib os env post).2)) ∧
    (isFloatKind slot.field.Typ.Kind = true →
      slot.field.Typ.Bits = (if slot.field.Typ.Kind = .Float32 then 32 else 64) ∧
      ∀ (x : String) (f : F), isBlank x = false →
        Getenv os (slot.field.Tag.Get env.tag) = x →
        lib.ParseFloat x slot.field.Typ.Bits = .ok f →
        Read lib os env (pre ++ slot :: post) =
          ((Read lib os env pre).1 ++
            { slot with value :=
                (Value.float (if slot.field.Typ.Kind = .Float32 then lib.toFloat32 f else f)) } ::
            (Read lib os env post).1, (Read lib os env post).2)) := by
  refine ⟨?_, ?_, ?_, ?_⟩
  · intro hI
    refine ⟨isIntKind_Bits _ hI, ?_⟩
    intro v h1 h2 hget
    have hden := intOfText_formatInt v
    have hraw := rawValue_of_Getenv os env slot.field _ hget
      (intOfText_some_not_blank _ v hden)
    apply Read_at_ok lib os env pre post slot _ hpre
    rw [readField_int lib os env slot hI v (by rw [hraw]; exact hden), if_pos ⟨h1, h2⟩]
  · intro hB
    constructor
    · intro hget
      have hraw := rawValue_of_Getenv os env slot.field _ hget (by decide)
      apply Read_at_ok lib os env pre post slot _ hpre
      rw [readField_eq, hraw, if_neg (by decide), if_pos hB]
      rfl
    · intro hget
      have hraw := rawValue_of_Getenv os env slot.field _ hget (by decide)
      apply Read_at_ok lib os env pre post slot _ hpre
      rw [readField_eq, hraw, if_neg (by decide), if_pos hB]
      rfl
  · intro hS str hnb hget
    have hraw := rawValue_of_Getenv os env slot.field _ hget hnb
    apply Read_at_ok lib os env pre post slot _ hpre
    rw [readField_eq, hraw, hnb, if_neg (by simp), if_neg (by rw [hS]; simp),
      if_neg (by rw [hS]; simp [isIntKind]), if_neg (by rw [hS]; simp [isFloatKind]),
      if_neg (by rw [hS]; simp), if_pos hS]
  · intro hFl
    refine ⟨isFloatKind_Bits _ hFl, ?_⟩
    intro x f hnb hget hp
    have hraw := rawValue_of_Getenv os env slot.field x hget hnb
    apply Read_at_ok lib os env pre post slot _ hpre
    exact readField_float lib os env slot hFl (by rw [hraw]; exact hnb) f
      (by rw [hraw]; exact hp)

/-- Instance of C5: an `int8` field reads -128 back from the text `-128`, and a `float64` field
reads back the value that `ParseFloat` gives for `2.5`. -/
theorem Read_scalar_round_trip_witness :
    formatInt (-128) = "-128" ∧
    Read decimalLib [("LEVEL", "-128")] testReader ([] ++ levelSlot :: []) =
      ([] ++ { levelSlot with value := .int (-128) } :: [], none) ∧
    decimalLib.ParseFloat "2.5" 64 = .ok ((25 : Int), 1) ∧
    Read decimalLib [("SIZE", "2.5")] testReader ([] ++ sizeSlot :: []) =
      ([] ++ { sizeSlot with value := (Value.float ((25 : Int), 1)) } :: [], none) :=
  ⟨by decide,
    ((Read_scalar_round_trip decimalLib [("LEVEL", "-128")] testReader [] [] levelSlot
      (by decide)).1 (by decide)).2 (-128) (by decide) (by decide) (by decide),
    by decide,
    ((Read_scalar_round_trip decimalLib [("SIZE", "2.5")] testReader [] [] sizeSlot
      (by decide)).2.2.2 (by decide)).2 "2.5" ((25 : Int), 1) (by decide) (by decide)
      (by decide)⟩

/-- C6. Integer width constraint.  For a scalar signed integer field of width `w` with a
non-blank raw value, in a struct whose earlier fields are read without error: when the raw
value is a well-formed base-10 integer `n` within `-2^(w-1) .. 2^(w-1)-1` the field is set to
`n`; when `n` lies outside that range `Read` fails with a range error and the field and all
later fields are unchanged; when the raw value is not a well-formed base-10 integer `Read`
fails as well, with the field unchanged. -/
theorem Read_int_width_constraint {F : Type} (lib : FloatLib F) (os : Env) (env : EnvReader)
    (pre post : List (FieldSlot F)) (slot : FieldSlot F)
    (hpre : (Read lib os env pre).2 = none)
    (hI : isIntKind slot.field.Typ.Kind = true)
    (hnb : isBlank (rawValue os env slot.field) = false) :
    (∀ n : Int, intOfText (rawValue os env slot.field) = some n →
      (-(2 : Int) ^ (slot.field.Typ.Bits - 1) ≤ n ∧ n ≤ 2 ^ (slot.field.Typ.Bits - 1) - 1 →
        Read lib os env (pre ++ slot :: post) =
          ((Read lib os env pre).1 ++ { slot with value := .int n } :: (Read lib os env post).1,
            (Read lib os env post).2)) ∧
      (¬ (-(2 : Int) ^ (slot.field.Typ.Bits - 1) ≤ n ∧ n ≤ 2 ^ (slot.field.Typ.Bits - 1) - 1) →
        Read lib os env (pre ++ slot :: post) =
          ((Read lib os env pre).1 ++ slot :: post,
            some (rangeError "ParseInt" (rawValue os env slot.field))))) ∧
    (intOfText (rawValue os env slot.field) = none →
      ∃ e, Read lib os env (pre ++ slot :: post) =
        ((Read lib os env pre).1 ++ slot :: post, some e)) := by
  refine ⟨?_, ?_⟩
  · intro n hden
    have hstep := readField_int lib os env slot hI n hden
    constructor
    · intro hr
      rw [if_pos hr] at hstep
      exact Read_at_ok lib os env pre post slot _ hpre hstep
    · intro hr
      rw [if_neg hr] at hstep
      exact Read_at_error lib os env pre post slot _ hpre hstep
  · intro hden
    obtain ⟨e, he⟩ := readField_int_malformed lib os env slot hI hnb hden
    exact ⟨e, Read_at_error lib os env pre post slot e hpre he⟩

/-- Instance of C6: the text `300` does not fit an `int8` field; `Read` fails with a range
error and the field keeps 5. -/
theorem Read_int_width_constraint_witness :
    Read decimalLib [("LEVEL", "300")] testReader ([] ++ levelSlot :: []) =
      ([] ++ levelSlot :: [], some (rangeError "ParseInt" "300")) :=
  ((Read_int_width_constraint decimalLib [("LEVEL", "300")] testReader [] [] levelSlot
    (by decide) (by decide) (by decide)).1 300 (by decide)).2 (by decide)

/-- C7. Bool coercion: for a bool field with a non-blank raw value `r`, in a struct whose
earlier fields are read without error, the field is set to a boolean `b`, whatever it held
before, where `b` is `true` exactly when `r` is "1" or the lower-casing of `r` is "true" (so
`false` for every other `r`); the field never adds an error.  The lower-casing of `r` is "true"
exactly for the sixteen spellings of `true` in upper and lower case letters. -/
theorem Read_bool_coercion {F : Type} (lib : FloatLib F) (os : Env) (env : EnvReader)
    (pre post : List (FieldSlot F)) (slot : FieldSlot F)
    (hpre : (Read lib os env pre).2 = none)
    (hB : slot.field.Typ.Kind = .Bool)
    (hnb : isBlank (rawValue os env slot.field) = false) :
    (∃ b : Bool,
      (b = true ↔ rawValue os env slot.field = "1" ∨
        ToLower (rawValue os env slot.field) = "true") ∧
      Read lib os env (pre ++ slot :: post) =
        ((Read lib os env pre).1 ++ { slot with value := .bool b } :: (Read lib os env post).1,
          (Read lib os env post).2)) ∧
    (ToLower (rawValue os env slot.field) = "true" ↔
      ∃ a b c d, (rawValue os env slot.field).data = [a, b, c, d] ∧ (a = 't' ∨ a = 'T') ∧
        (b = 'r' ∨ b = 'R') ∧ (c = 'u' ∨ c = 'U') ∧ (d = 'e' ∨ d = 'E')) := by
  refine ⟨⟨(rawValue os env slot.field == "1") ||
    (ToLower (rawValue os env slot.field) == "true"), by simp, ?_⟩, ToLower_eq_true_iff _⟩
  apply Read_at_ok lib os env pre post slot _ hpre
  rw [readField_eq, hnb, if_neg (by simp), if_pos hB]

/-- Instance of C7: the text `yes` sets a bool field that held `true` to `false`. -/
theorem Read_bool_coercion_witness :
    enabledSlot.value = .bool true ∧
    Read decimalLib [("ENABLED", "yes")] testReader ([] ++ enabledSlot :: []) =
      ([] ++ { enabledSlot with value := .bool false } :: [], none) ∧
    ∃ b : Bool,
      (b = true ↔ rawValue [("ENABLED", "yes")] testReader enabledSlot.field = "1" ∨
        ToLower (rawValue [("ENABLED", "yes")] testReader enabledSlot.field) = "true") ∧
      Read decimalLib [("ENABLED", "yes")] testReader ([] ++ enabledSlot :: []) =
        ((Read decimalLib [("ENABLED", "yes")] testReader []).1 ++
          { enabledSlot with value := .bool b } ::
          (Read decimalLib [("ENABLED", "yes")] testReader []).1,
          (Read decimalLib [("ENABLED", "yes")] testReader []).2) :=
  ⟨by decide, by decide,
    (Read_bool_coercion decimalLib [("ENABLED", "yes")] testReader [] [] enabledSlot
      (by decide) (by decide) (by decide)).1⟩

/-- C8. List of String: for a `[]string` field with a non-blank raw value `r`, in a struct whose
earlier fields are read without error, the field is set to the segments obtained by deleting
every space from `r` and splitting at each comma, in order, empty segments included, and the
field adds no error.  The segments joined with commas give `r` without its spaces, no segment
contains a space or a comma, and they are the only non-empty sequence of comma-free texts that
joins to `r` without its spaces. -/
theorem Read_string_list {F : Type} (lib : FloatLib F) (os : Env) (env : EnvReader)
    (pre post : List (FieldSlot F)) (slot : FieldSlot F)
    (hpre : (Read lib os env pre).2 = none)
    (hT : slot.field.Typ = .slice .string)
    (hnb : isBlank (rawValue os env slot.field) = false) :
    Read lib os env (pre ++ slot :: post) =
      ((Read lib os env pre).1 ++
        { slot with value := (Value.slice
            ((Split (ReplaceAll (rawValue os env slot.field) ' ' "") ',').map Value.string)) } ::
          (Read lib os env post).1,
        (Read lib os env post).2) ∧
    joinWith ',' ((Split (ReplaceAll (rawValue os env slot.field) ' ' "") ',').map String.data) =
      (rawValue os env slot.field).data.filter (fun c => decide (c ≠ ' ')) ∧
    (∀ seg ∈ Split (ReplaceAll (rawValue os env slot.field) ' ' "") ',',
      ' ' ∉ seg.data ∧ ',' ∉ seg.data) ∧
    (∀ segs : List String, segs ≠ [] → (∀ seg ∈ segs, ',' ∉ seg.data) →
      joinWith ',' (segs.map String.data) =
        (rawValue os env slot.field).data.filter (fun c => decide (c ≠ ' ')) →
      segs = Split (ReplaceAll (rawValue os env slot.field) ' ' "") ',') := by
  have hdata : (Split (ReplaceAll (rawValue os env slot.field) ' ' "") ',').map String.data =
      splitRunes ',' ((rawValue os env slot.field).data.filter (fun c => decide (c ≠ ' '))) := by
    simp only [Split, ReplaceAll_empty_data, List.map_map]
    exact List.map_id _
  refine ⟨?_, ?_, ?_, ?_⟩
  · apply Read_at_ok lib os env pre post slot _ hpre
    have hfun : sliceElem lib (.slice .string) (zeroValue lib GoType.string) = Value.string :=
      funext (sliceElem_string lib _)
    rw [readField_slice lib os env slot (by rw [hT]; rfl) hnb, hT, createSlice_eq]
    simp only [GoType.Elem, hfun]
  · rw [hdata, joinWith_splitRunes]
  · intro seg hseg
    have hmem : seg.data ∈ splitRunes ','
        ((rawValue os env slot.field).data.filter (fun c => decide (c ≠ ' '))) := by
      rw [← hdata]
      exact List.mem_map_of_mem _ hseg
    obtain ⟨h1, h2⟩ := mem_splitRunes _ _ _ hmem
    refine ⟨?_, h1⟩
    intro hsp
    have := h2 _ hsp
    simp at this
  · intro segs hne hsep hjoin
    have h1 : splitRunes ',' (joinWith ',' (segs.map String.data)) = segs.map String.data :=
      splitRunes_joinWith ',' _ (by simpa using hne) (by
        intro seg hseg
        obtain ⟨x, hx, rfl⟩ := List.mem_map.mp hseg
        exact hsep x hx)
    rw [hjoin, ← hdata] at h1
    have h2 := congrArg (List.map String.mk) h1
    simp only [List.map_map] at h2
    have hid : ∀ l : List String, List.map (String.mk ∘ String.data) l = l := by
      intro l
      exact List.map_id _
    rw [hid, hid] at h2
    exact h2.symm

/-- Instance of C8 on the test struct: the default `dancing, sleeping,gaming` of `Hobbies`
gives the three hobbies. -/
theorem Read_string_list_witness :
    Read decimalLib [] testReader ([] ++ hobbiesSlot :: []) =
      ([] ++ { hobbiesSlot with value :=
          (Value.slice [.string "dancing", .string "sleeping", .string "gaming"]) } :: [],
        none) :=
  (Read_string_list decimalLib [] testReader [] [] hobbiesSlot
    (by decide) (by decide) (by decide)).1

/-- C9. List of Int element tolerance: for a `[]int` field with a non-blank raw value `r`, in a
struct whose earlier fields are read without error, the field is set to a list with one slot per
comma-separated segment of `r` without its spaces; slot `i` holds the integer segment `i`
denotes when it parses and 0 when it does not; whatever the raw value, the field produces no
error. -/
theorem Read_int_list {F : Type} (lib : FloatLib F) (os : Env) (env : EnvReader)
    (pre post : List (FieldSlot F)) (slot : FieldSlot F)
    (hpre : (Read lib os env pre).2 = none)
    (hT : slot.field.Typ = .slice .int) :
    (isBlank (rawValue os env slot.field) = false →
      Read lib os env (pre ++ slot :: post) =
        ((Read lib os env pre).1 ++
          { slot with value := (Value.slice
              ((Split (ReplaceAll (rawValue os env slot.field) ' ' "") ',').map
                fun seg => Value.int (intSlotOf seg))) } :: (Read lib os env post).1,
          (Read lib os env post).2)) ∧
    (∃ v, readField lib os env slot = .ok v) ∧
    (Read lib os env (pre ++ slot :: post)).2 = (Read lib os env post).2 := by
  have hstep : isBlank (rawValue os env slot.field) = false →
      readField lib os env slot =
        .ok (.slice ((Split (ReplaceAll (rawValue os env slot.field) ' ' "") ',').map
          fun seg => Value.int (intSlotOf seg))) := by
    intro hnb
    have hfun : sliceElem lib (.slice .int) (zeroValue lib GoType.int) =
        fun seg => Value.int (intSlotOf seg) := funext (sliceElem_int lib)
    rw [readField_slice lib os env slot (by rw [hT]; rfl) hnb, hT, createSlice_eq]
    simp only [GoType.Elem, hfun]
  have hok : ∃ v, readField lib os env slot = .ok v := by
    by_cases hb : isBlank (rawValue os env slot.field) = true
    · exact ⟨slot.value, by rw [readField_eq, if_pos hb]⟩
    · exact ⟨_, hstep (by simpa using hb)⟩
  refine ⟨fun hnb => Read_at_ok lib os env pre post slot _ hpre (hstep hnb), hok, ?_⟩
  obtain ⟨v, hv⟩ := hok
  rw [Read_at_ok lib os env pre post slot v hpre hv]

/-- Instance of C9: `1,x,3` gives `[1, 0, 3]`, and the default `1, 7,2,3` of `Counter` gives
`[1, 7, 2, 3]`. -/
theorem Read_int_list_witness :
    Read decimalLib [("COUNTER", "1,x,3")] testReader ([] ++ counterSlot :: []) =
      ([] ++ { counterSlot with value := (Value.slice [.int 1, .int 0, .int 3]) } :: [],
        none) ∧
    Read decimalLib [] testReader ([] ++ counterSlot :: []) =
      ([] ++ { counterSlot with value := (Value.slice [.int 1, .int 7, .int 2, .int 3]) } :: [],
        none) :=
  ⟨(Read_int_list decimalLib [("COUNTER", "1,x,3")] testReader [] [] counterSlot
      (by decide) (by decide)).1 (by decide),
    (Read_int_list decimalLib [] testReader [] [] counterSlot
      (by decide) (by decide)).1 (by decide)⟩

/-- The two paths of the code for a field whose type is none of bool, a signed integer, a
float, string, `[]string`, `[]int`, `[]float32`, `[]float64`.  Neither path produces an error.
A field whose kind is not slice (an unsigned integer, a struct, a map ...) is left at its
pre-call value for every raw value.  A field that is a slice of another element type
(`[]int64`, `[]bool`, a defined slice type ...) keeps its value only for a blank raw value; for
a non-blank raw value `createSlice` and `field.Set` overwrite it with zero values, one slot per
comma-separated segment. -/
theorem Read_unsupported_type {F : Type} (lib : FloatLib F) (os : Env) (env : EnvReader)
    (pre post : List (FieldSlot F)) (slot : FieldSlot F)
    (hpre : (Read lib os env pre).2 = none)
    (hB : slot.field.Typ.Kind ≠ .Bool) (hI : isIntKind slot.field.Typ.Kind = false)
    (hFl : isFloatKind slot.field.Typ.Kind = false) (hS : slot.field.Typ.Kind ≠ .String)
    (h1 : slot.field.Typ ≠ .slice .string) (h2 : slot.field.Typ ≠ .slice .int)
    (h3 : slot.field.Typ ≠ .slice .float32) (h4 : slot.field.Typ ≠ .slice .float64) :
    (Read lib os env (pre ++ slot :: post)).2 = (Read lib os env post).2 ∧
    (slot.field.Typ.Kind ≠ .Slice ∨ isBlank (rawValue os env slot.field) = true →
      Read lib os env (pre ++ slot :: post) =
        ((Read lib os env pre).1 ++ slot :: (Read lib os env post).1,
          (Read lib os env post).2)) ∧
    (slot.field.Typ.Kind = .Slice → isBlank (rawValue os env slot.field) = false →
      Read lib os env (pre ++ slot :: post) =
        ((Read lib os env pre).1 ++
          { slot with value := (Value.slice
              (List.replicate
                (Split (ReplaceAll (rawValue os env slot.field) ' ' "") ',').length
                (zeroValue lib slot.field.Typ.Elem))) } :: (Read lib os env post).1,
          (Read lib os env post).2)) := by
  have hkeep : slot.field.Typ.Kind ≠ .Slice ∨ isBlank (rawValue os env slot.field) = true →
      readField lib os env slot = .ok slot.value := by
    intro h
    rw [readField_eq]
    by_cases hb : isBlank (rawValue os env slot.field) = true
    · rw [if_pos hb]
    · rcases h with h | h
      · rw [if_neg hb, if_neg hB, if_neg (by simp [hI]), if_neg (by simp [hFl]), if_neg h,
          if_neg hS]
      · exact absurd h hb
  have hzero : slot.field.Typ.Kind = .Slice → isBlank (rawValue os env slot.field) = false →
      readField lib os env slot =
        .ok (.slice (List.replicate
          (Split (ReplaceAll (rawValue os env slot.field) ' ' "") ',').length
          (zeroValue lib slot.field.Typ.Elem))) := by
    intro hK hnb
    have hfun : sliceElem lib slot.field.Typ (zeroValue lib slot.field.Typ.Elem) =
        fun _ => zeroValue lib slot.field.Typ.Elem :=
      funext fun seg => sliceElem_unsupported lib _ _ seg h1 h2 h3 h4
    rw [readField_slice lib os env slot hK hnb, createSlice_eq]
    simp only [hfun, List.map_const']
  have hok : ∃ v, readField lib os env slot = .ok v := by
    by_cases hK : slot.field.Typ.Kind = .Slice
    · by_cases hb : isBlank (rawValue os env slot.field) = true
      · exact ⟨_, hkeep (Or.inr hb)⟩
      · exact ⟨_, hzero hK (by simpa using hb)⟩
    · exact ⟨_, hkeep (Or.inl hK)⟩
  refine ⟨?_, ?_, ?_⟩
  · obtain ⟨v, hv⟩ := hok
    rw [Read_at_ok lib os env pre post slot v hpre hv]
  · intro h
    exact Read_at_ok lib os env pre post slot _ hpre (hkeep h)
  · intro hK hnb
    exact Read_at_ok lib os env pre post slot _ hpre (hzero hK hnb)

/-- The non-slice path on an instance: a `uint16` field keeps 80 although `PORT=8080` is
set. -/
theorem Read_unsupported_type_witness :
    Read decimalLib [("PORT", "8080")] testReader ([] ++ portSlot :: []) =
      ([] ++ portSlot :: [], none) :=
  (Read_unsupported_type decimalLib [("PORT", "8080")] testReader [] [] portSlot
    (by decide) (by decide) (by decide) (by decide) (by decide) (by decide) (by decide)
    (by decide) (by decide)).2.1 (Or.inl (by decide))

/-- C10. Unsupported types are meant to be a no-op, and the code breaks this for slices: a
field `Ids []int64` holding `[5, 6]` is not among the supported types, yet with `IDS=1,2,3`
`Read` returns no error and leaves `[0, 0, 0]` in it, where a field of an unsupported type that
is not a slice (`Port uint16`, holding 80, with `PORT=8080`) is left as it was. -/
theorem unsupported_slice_is_overwritten :
    idsSlot.field.Typ = .slice .int64 ∧
    isSupportedType idsSlot.field.Typ = false ∧
    idsSlot.value = .slice [.int 5, .int 6] ∧
    Read decimalLib [("IDS", "1,2,3")] testReader [idsSlot] =
      ([{ idsSlot with value := (Value.slice [.int 0, .int 0, .int 0]) }], none) ∧
    (Read decimalLib [("IDS", "1,2,3")] testReader [idsSlot]).1 ≠ [idsSlot] ∧
    isSupportedType portSlot.field.Typ = false ∧
    Read decimalLib [("PORT", "8080")] testReader [portSlot] = ([portSlot], none) := by
  decide

/-- C11. String fields are assigned verbatim: a string field with a non-blank raw value `r`, in
a struct whose earlier fields are read without error, is set to exactly `r`, character for
character (leading, trailing and inner white space included), and adds no error. -/
theorem Read_string_verbatim {F : Type} (lib : FloatLib F) (os : Env) (env : EnvReader)
    (pre post : List (FieldSlot F)) (slot : FieldSlot F)
    (hpre : (Read lib os env pre).2 = none)
    (hS : slot.field.Typ.Kind = .String)
    (hnb : isBlank (rawValue os env slot.field) = false) :
    Read lib os env (pre ++ slot :: post) =
      ((Read lib os env pre).1 ++
        { slot with value := .string (rawValue os env slot.field) } :: (Read lib os env post).1,
        (Read lib os env post).2) :=
  Read_at_ok lib os env pre post slot _ hpre (readField_string lib os env slot hS hnb)

/-- Instance of C11: the text `"  Ann  Lee\t"` reaches the field `Name` with its white space. -/
theorem Read_string_verbatim_witness :
    Read decimalLib [("NAME", "  Ann  Lee\t")] testReader ([] ++ nameSlot :: []) =
      ([] ++ { nameSlot with value := .string "  Ann  Lee\t" } :: [], none) :=
  Read_string_verbatim decimalLib [("NAME", "  Ann  Lee\t")] testReader [] [] nameSlot
    (by decide) (by decide) (by decide)

/-- C13. Tag accessors: after `Init` the key tag is "env" and the default tag is "default",
whatever the reader held; `SetTagName n` makes `GetTagName` return `n` and leaves
`GetTagNameDefault` as it was; `SetTagNameDefault n` makes `GetTagNameDefault` return `n` and
leaves `GetTagName` as it was. -/
theorem tag_accessors (env : EnvReader) (n : String) :
    env.Init.GetTagName = "env" ∧
    env.Init.GetTagNameDefault = "default" ∧
    (env.SetTagName n).GetTagName = n ∧
    (env.SetTagName n).GetTagNameDefault = env.GetTagNameDefault ∧
    (env.SetTagNameDefault n).GetTagNameDefault = n ∧
    (env.SetTagNameDefault n).GetTagName = env.GetTagName :=
  ⟨rfl, rfl, rfl, rfl, rfl, rfl⟩

/-- C14. End-to-end defaults: with the tag names of `Init` and an environment in which none of
`LISTEN_HOST`, `LISTEN_PORT`, `ENABLE_DEBUG`, `NUMBERS` is set, `Read` on the zero-valued
`Config` of the example returns no error and leaves
`{ListenHost:"127.0.0.1", ListenPort:"5000", Debug:false, Numbers:[1,2,3,4]}`, the field
declarations being untouched. -/
theorem Read_example_defaults {F : Type} (lib : FloatLib F) (os : Env) (env : EnvReader)
    (h1 : LookupEnv os "LISTEN_HOST" = none) (h2 : LookupEnv os "LISTEN_PORT" = none)
    (h3 : LookupEnv os "ENABLE_DEBUG" = none) (h4 : LookupEnv os "NUMBERS" = none) :
    (Read lib os env.Init (exampleConfig F)).2 = none ∧
    (Read lib os env.Init (exampleConfig F)).1.map (fun slot => slot.value) =
      exampleConfigExpected F ∧
    (Read lib os env.Init (exampleConfig F)).1.map (fun slot => slot.field) =
      (exampleConfig F).map (fun slot => slot.field) := by
  have hinit : env.Init = testReader := rfl
  rw [hinit]
  have r1 : rawValue os testReader
      ⟨"ListenHost", .string, [("env", "LISTEN_HOST"), ("default", "127.0.0.1")]⟩ =
      "127.0.0.1" := rawValue_of_unset os testReader _ h1
  have r2 : rawValue os testReader
      ⟨"ListenPort", .string, [("env", "LISTEN_PORT"), ("default", "5000")]⟩ = "5000" :=
    rawValue_of_unset os testReader _ h2
  have r3 : rawValue os testReader ⟨"Debug", .bool, [("env", "ENABLE_DEBUG")]⟩ = "" :=
    rawValue_of_unset os testReader _ h3
  have r4 : rawValue os testReader
      ⟨"Numbers", .slice .int, [("env", "NUMBERS"), ("default", "1,2,3,4")]⟩ = "1,2,3,4" :=
    rawValue_of_unset os testReader _ h4
  have e1 : readField lib os testReader
      ⟨⟨"ListenHost", .string, [("env", "LISTEN_HOST"), ("default", "127.0.0.1")]⟩, .string ""⟩ =
      .ok (.string "127.0.0.1") := by
    rw [readField_string lib os testReader
      ⟨⟨"ListenHost", .string, [("env", "LISTEN_HOST"), ("default", "127.0.0.1")]⟩, .string ""⟩
      rfl (by rw [r1]; decide), r1]
  have e2 : readField lib os testReader
      ⟨⟨"ListenPort", .string, [("env", "LISTEN_PORT"), ("default", "5000")]⟩, .string ""⟩ =
      .ok (.string "5000") := by
    rw [readField_string lib os testReader
      ⟨⟨"ListenPort", .string, [("env", "LISTEN_PORT"), ("default", "5000")]⟩, .string ""⟩
      rfl (by rw [r2]; decide), r2]
  have e3 : readField lib os testReader
      ⟨⟨"Debug", .bool, [("env", "ENABLE_DEBUG")]⟩, .bool false⟩ = .ok (.bool false) := by
    rw [readField_eq, if_pos (by rw [r3]; decide)]
  have e4 : readField lib os testReader
      ⟨⟨"Numbers", .slice .int, [("env", "NUMBERS"), ("default", "1,2,3,4")]⟩,
        .zero (.slice .int)⟩ =
      .ok (.slice [.int 1, .int 2, .int 3, .int 4]) := by
    have hfun : sliceElem lib (.slice .int) (zeroValue lib GoType.int) =
        fun seg => Value.int (intSlotOf seg) := funext (sliceElem_int lib)
    rw [readField_slice lib os testReader
      ⟨⟨"Numbers", .slice .int, [("env", "NUMBERS"), ("default", "1,2,3,4")]⟩,
        .zero (.slice .int)⟩ rfl (by rw [r4]; decide), r4, createSlice_eq]
    simp only [GoType.Elem, hfun]
    rfl
  simp only [exampleConfig, Read_cons_ok lib os testReader _ _ _ e1,
    Read_cons_ok lib os testReader _ _ _ e2, Read_cons_ok lib os testReader _ _ _ e3,
    Read_cons_ok lib os testReader _ _ _ e4, Read_nil, exampleConfigExpected, List.map_cons,
    List.map_nil, and_self]

/-- Instance of C14 on the empty environment, with the reader of the example. -/
theorem Read_example_defaults_witness :
    (Read decimalLib [] testReader (exampleConfig (Int × Nat))).2 = none ∧
    (Read decimalLib [] testReader (exampleConfig (Int × Nat))).1.map (fun slot => slot.value) =
      [.string "127.0.0.1", .string "5000", .bool false,
        .slice [.int 1, .int 2, .int 3, .int 4]] :=
  ⟨(Read_example_defaults decimalLib [] ⟨"", ""⟩ (by decide) (by decide) (by decide)
      (by decide)).1,
    (Read_example_defaults decimalLib [] ⟨"", ""⟩ (by decide) (by decide) (by decide)
      (by decide)).2.1⟩

/-- C12. Tag reconfiguration drives `Read`.  After `SetTagName k` the lookup key of every field
is the tag entry named `k` (the fallback text still comes from the default tag), and after
`SetTagNameDefault d` the fallback text is the tag entry named `d`.  When `k` is not "env" the
lookup key does not depend on the entries named "env", and `Read` as a whole gives the same
values and the same outcome on the struct declared without them, provided the default tag is
not "env" either; likewise for `d` and the entries named "default".  A tag without an entry
under the configured name resolves to the empty string. -/
theorem Read_uses_configured_tags {F : Type} (lib : FloatLib F) (os : Env) (env : EnvReader)
    (k d : String) :
    (∀ slot : FieldSlot F, readField lib os (env.SetTagName k) slot =
      setEnvByType lib os slot.value slot.field.Typ (slot.field.Tag.Get k)
        (slot.field.Tag.Get env.GetTagNameDefault)) ∧
    (∀ slot : FieldSlot F, readField lib os (env.SetTagNameDefault d) slot =
      setEnvByType lib os slot.value slot.field.Typ (slot.field.Tag.Get env.GetTagName)
        (slot.field.Tag.Get d)) ∧
    (k ≠ "env" → ∀ tag : StructTag,
      StructTag.Get (tag.filter (fun kv => decide (kv.1 ≠ "env"))) k = StructTag.Get tag k) ∧
    (d ≠ "default" → ∀ tag : StructTag,
      StructTag.Get (tag.filter (fun kv => decide (kv.1 ≠ "default"))) d = StructTag.Get tag d) ∧
    (k ≠ "env" → env.GetTagNameDefault ≠ "env" → ∀ fields : List (FieldSlot F),
      Read lib os (env.SetTagName k) (fields.map (eraseTag "env")) =
        ((Read lib os (env.SetTagName k) fields).1.map (eraseTag "env"),
          (Read lib os (env.SetTagName k) fields).2)) ∧
    (d ≠ "default" → env.GetTagName ≠ "default" → ∀ fields : List (FieldSlot F),
      Read lib os (env.SetTagNameDefault d) (fields.map (eraseTag "default")) =
        ((Read lib os (env.SetTagNameDefault d) fields).1.map (eraseTag "default"),
          (Read lib os (env.SetTagNameDefault d) fields).2)) ∧
    (∀ (tag : StructTag) (key : String), (∀ kv ∈ tag, kv.1 ≠ key) →
      StructTag.Get tag key = "") :=
  ⟨fun _ => rfl, fun _ => rfl,
    fun hk tag => Get_filter_ne tag "env" k hk,
    fun hd tag => Get_filter_ne tag "default" d hd,
    fun hk hdef fields => Read_eraseTag lib os (env.SetTagName k) "env" fields hk hdef,
    fun hd hkey fields => Read_eraseTag lib os (env.SetTagNameDefault d) "default" fields hkey hd,
    Get_of_no_entry⟩

/-- Instance of C12 on `examples/customTags.go`: after `SetTagName("envvalue")` the struct
`ConfigCustom` is filled from `LISTEN_HOST` and the defaults, and an entry named "env" added to
a field changes nothing. -/
theorem Read_uses_configured_tags_witness :
    (Read decimalLib [("LISTEN_HOST", "0.0.0.0")] (testReader.SetTagName "envvalue")
        customConfig).1.map (fun slot => slot.value) =
      [.string "0.0.0.0", .string "5000", .bool false] ∧
    StructTag.Get [("env", "OTHER"), ("envvalue", "LISTEN_HOST")] "envvalue" = "LISTEN_HOST" ∧
    StructTag.Get
      (List.filter (fun kv => decide (kv.1 ≠ "env"))
        [("env", "OTHER"), ("envvalue", "LISTEN_HOST")]) "envvalue" =
      StructTag.Get [("env", "OTHER"), ("envvalue", "LISTEN_HOST")] "envvalue" :=
  ⟨by decide, by decide,
    (Read_uses_configured_tags decimalLib [] testReader "envvalue" "default").2.2.1
      (by decide) [("env", "OTHER"), ("envvalue", "LISTEN_HOST")]⟩

/-- C15. `Read` leaves the loader unchanged: whatever the struct, the environment and the
outcome, the reader after `Read` is the reader before it, with the same key tag and default
tag, and the struct and error are those of `Read`; a second `Read` through the reader the first
one left resolves every field as it would have with the reader before the first. -/
theorem Read_leaves_loader_unchanged {F : Type} (lib : FloatLib F) (os : Env) (env : EnvReader)
    (fields : List (FieldSlot F)) :
    (ReadLoader lib os env fields).1 = env ∧
    (ReadLoader lib os env fields).1.GetTagName = env.GetTagName ∧
    (ReadLoader lib os env fields).1.GetTagNameDefault = env.GetTagNameDefault ∧
    (ReadLoader lib os env fields).2 = Read lib os env fields ∧
    (∀ (os2 : Env) (fields2 : List (FieldSlot F)),
      ReadLoader lib os2 (ReadLoader lib os env fields).1 fields2 =
        ReadLoader lib os2 env fields2) ∧
    (∀ slot : FieldSlot F,
      rawValue os (ReadLoader lib os env fields).1 slot.field = rawValue os env slot.field) := by
  rw [ReadLoader_eq]
  exact ⟨rfl, rfl, rfl, rfl, fun _ _ => rfl, fun _ => rfl⟩

/-- C16. `Read` is idempotent: for a fixed environment and reader, `Read` on the struct a first
`Read` left returns the same outcome (no error, or the same error) and leaves that struct as it
is. -/
theorem Read_idempotent {F : Type} (lib : FloatLib F) (os : Env) (env : EnvReader)
    (fields : List (FieldSlot F)) :
    Read lib os env (Read lib os env fields).1 =
      ((Read lib os env fields).1, (Read lib os env fields).2) := by
  induction fields with
  | nil => rfl
  | cons slot rest ih =>
    cases hs : readField lib os env slot with
    | error e =>
      rw [Read_cons_error lib os env slot rest e hs]
      exact Read_cons_error lib os env slot rest e hs
    | ok v =>
      rw [Read_cons_ok lib os env slot rest v hs]
      simp only []
      rw [Read_cons_ok lib os env _ _ v (readField_idempotent lib os env slot v hs), ih]

/-- C17. No fallback on parse failure: a scalar integer or float field whose environment value
`x` is not blank and does not parse makes `Read` fail, whatever default text the field
declares; its raw value is `x`, the default text is not consulted.  When the earlier fields are
read without error the error returned is the one of that parse, and the field and the later
fields keep their values. -/
theorem Read_no_fallback_on_parse_failure {F : Type} (lib : FloatLib F) (os : Env)
    (env : EnvReader) (pre post : List (FieldSlot F)) (slot : FieldSlot F) (x : String)
    (e : NumError)
    (hx : Getenv os (slot.field.Tag.Get env.tag) = x)
    (hnb : isBlank x = false)
    (hfail : (isIntKind slot.field.Typ.Kind = true ∧
        ParseInt x 10 slot.field.Typ.Bits = .error e) ∨
      (isFloatKind slot.field.Typ.Kind = true ∧
        lib.ParseFloat x slot.field.Typ.Bits = .error e)) :
    rawValue os env slot.field = x ∧
    (∃ e', (Read lib os env (pre ++ slot :: post)).2 = some e') ∧
    ((Read lib os env pre).2 = none →
      Read lib os env (pre ++ slot :: post) =
        ((Read lib os env pre).1 ++ slot :: post, some e)) := by
  have hraw := rawValue_of_Getenv os env slot.field x hx hnb
  have hspe : scalarParseError lib os env slot.field = some e := by
    rw [scalarParseError, hraw, hnb, if_neg (by simp)]
    rcases hfail with ⟨hI, hp⟩ | ⟨hFl, hp⟩
    · rw [if_pos hI, hp]
    · have hI : ¬ isIntKind slot.field.Typ.Kind = true := by
        intro hI
        have := (isIntKind_ne hI).2.1
        rw [this] at hFl
        cases hFl
      rw [if_neg hI, if_pos hFl, hp]
  refine ⟨hraw, ?_, ?_⟩
  · exact (Read_snd_eq_some_iff lib os env (pre ++ slot :: post)).mpr
      ⟨slot, by simp, e, hspe⟩
  · intro hpre
    exact Read_at_error lib os env pre post slot e hpre
      ((readField_error_iff lib os env slot e).mpr hspe)

/-- Instance of C17 on `TestReaderFailInt`: with `IDENV=hello` the field `IdEnv` makes `Read`
fail although its default `100` parses. -/
theorem Read_no_fallback_on_parse_failure_witness :
    ParseInt "100" 10 idEnvSlot.field.Typ.Bits = .ok 100 ∧
    rawValue [("IDENV", "hello")] testReader idEnvSlot.field = "hello" ∧
    Read decimalLib [("IDENV", "hello")] testReader ([] ++ idEnvSlot :: []) =
      ([] ++ idEnvSlot :: [], some (syntaxError "ParseInt" "hello")) :=
  ⟨by decide,
    (Read_no_fallback_on_parse_failure decimalLib [("IDENV", "hello")] testReader [] []
      idEnvSlot "hello" (syntaxError "ParseInt" "hello") (by decide) (by decide)
      (Or.inl (by decide))).1,
    (Read_no_fallback_on_parse_failure decimalLib [("IDENV", "hello")] testReader [] []
      idEnvSlot "hello" (syntaxError "ParseInt" "hello") (by decide) (by decide)
      (Or.inl (by decide))).2.2 (by decide)⟩

/-- C18, as the code has it.  Whitespace asymmetry between scalar and list integers.  Let `t` be
a well-formed base-10 integer text denoting `n`, padded with at least one leading or trailing
space.  A scalar signed integer field whose raw value is the padded text makes `Read` fail (the
error being the one of that field when the earlier fields are read without error).  When the
padded text is a comma-separated segment of the raw value of a `[]int` field, the slot of that
segment holds `n` if `n` fits 64 bits, the width of `int`, and is left at 0 if it does not. -/
theorem Read_padded_integer {F : Type} (lib : FloatLib F) (os : Env) (env : EnvReader)
    (pre post : List (FieldSlot F)) (slot : FieldSlot F) (t : String) (n : Int) (l r : Nat)
    (ht : intOfText t = some n) (hpad : 0 < l + r) :
    (isIntKind slot.field.Typ.Kind = true → rawValue os env slot.field = padded l t r →
      (∃ e, (Read lib os env (pre ++ slot :: post)).2 = some e) ∧
      ((Read lib os env pre).2 = none →
        ∃ e, Read lib os env (pre ++ slot :: post) =
          ((Read lib os env pre).1 ++ slot :: post, some e))) ∧
    (slot.field.Typ = .slice .int → (Read lib os env pre).2 = none →
      ∀ before after : List String, (∀ s ∈ before ++ after, ',' ∉ s.data) →
        (rawValue os env slot.field).data =
          joinWith ',' ((before ++ padded l t r :: after).map String.data) →
        ∃ xs ys, xs.length = before.length ∧ ys.length = after.length ∧
          Read lib os env (pre ++ slot :: post) =
            ((Read lib os env pre).1 ++
              { slot with value := (Value.slice (xs ++
                  Value.int (if -(2 : Int) ^ 63 ≤ n ∧ n ≤ 2 ^ 63 - 1 then n else 0) :: ys)) } ::
                (Read lib os env post).1,
              (Read lib os env post).2)) := by
  obtain ⟨c, hc, hcs⟩ := exists_nonspace_of_intOfText t n ht
  have hnsc := intOfText_some_no_space_comma t n ht
  constructor
  · intro hI hraw
    have hnb : isBlank (rawValue os env slot.field) = false := by
      rw [hraw]
      exact isBlank_false_of_mem _ c (mem_padded l r t c hc) hcs
    have hden : intOfText (rawValue os env slot.field) = none := by
      rw [hraw]
      exact intOfText_of_space_mem _ (space_mem_padded l r t hpad)
    obtain ⟨e, he⟩ := readField_int_malformed lib os env slot hI hnb hden
    refine ⟨?_, fun hpre => ⟨e, Read_at_error lib os env pre post slot e hpre he⟩⟩
    exact (Read_snd_eq_some_iff lib os env (pre ++ slot :: post)).mpr
      ⟨slot, by simp, e, (readField_error_iff lib os env slot e).mp he⟩
  · intro hT hpre before after hcomma hraw
    have hcomma' : ∀ s ∈ before ++ padded l t r :: after, ',' ∉ s.data := by
      intro s hs
      rcases List.mem_append.mp hs with h | h
      · exact hcomma s (List.mem_append_left _ h)
      · rcases List.mem_cons.mp h with rfl | h
        · exact comma_not_mem_padded l r t hnsc.2
        · exact hcomma s (List.mem_append_right _ h)
    have hnb : isBlank (rawValue os env slot.field) = false := by
      apply isBlank_false_of_mem _ c _ hcs
      rw [hraw]
      exact mem_joinWith ',' _ (padded l t r).data c
        (List.mem_map_of_mem _ (by simp)) (mem_padded l r t c hc)
    have hsplit := Split_of_joined (rawValue os env slot.field) _ (by simp) hcomma' hraw
    have hfun : sliceElem lib (.slice .int) (zeroValue lib GoType.int) =
        fun seg => Value.int (intSlotOf seg) := funext (sliceElem_int lib)
    have hmid : intSlotOf ⟨(padded l t r).data.filter (fun c => decide (c ≠ ' '))⟩ =
        if -(2 : Int) ^ 63 ≤ n ∧ n ≤ 2 ^ 63 - 1 then n else 0 := by
      rw [padded_filter l r t hnsc.1]
      simp only [intSlotOf, ht]
    refine ⟨before.map fun s =>
        Value.int (intSlotOf ⟨s.data.filter (fun c => decide (c ≠ ' '))⟩),
      after.map fun s => Value.int (intSlotOf ⟨s.data.filter (fun c => decide (c ≠ ' '))⟩),
      by simp, by simp, ?_⟩
    apply Read_at_ok lib os env pre post slot _ hpre
    rw [readField_slice lib os env slot (by rw [hT]; rfl) hnb, hT, createSlice_eq, hsplit]
    simp only [GoType.Elem, hfun, List.map_append, List.map_cons, List.map_map, hmid]
    rfl

/-- Instance of the amended C18: `" 42"` makes an `int` field fail; as the second segment of
`"1, 42 ,3"` it gives the slot 42 of a `[]int` field; and the padded segment
`" 9223372036854775808"`, which does not fit 64 bits, leaves its slot at 0. -/
theorem Read_padded_integer_witness :
    padded 1 "42" 0 = " 42" ∧
    Read decimalLib [("IDENV", " 42")] testReader ([] ++ idEnvSlot :: []) =
      ([] ++ idEnvSlot :: [], some (syntaxError "ParseInt" " 42")) ∧
    Read decimalLib [("COUNTER", "1, 42 ,3")] testReader ([] ++ counterSlot :: []) =
      ([] ++ { counterSlot with value := (Value.slice [.int 1, .int 42, .int 3]) } :: [],
        none) ∧
    (∃ e, (Read decimalLib [("IDENV", " 42")] testReader ([] ++ idEnvSlot :: [])).2 = some e) ∧
    (∃ xs ys : List (Value (Int × Nat)), xs.length = ["1"].length ∧ ys.length = ["3"].length ∧
      Read decimalLib [("COUNTER", "1, 42 ,3")] testReader ([] ++ counterSlot :: []) =
        ((Read decimalLib [("COUNTER", "1, 42 ,3")] testReader []).1 ++
          { counterSlot with value := (Value.slice (xs ++
              Value.int (if -(2 : Int) ^ 63 ≤ 42 ∧ (42 : Int) ≤ 2 ^ 63 - 1 then 42 else 0) ::
                ys)) } ::
            (Read decimalLib [("COUNTER", "1, 42 ,3")] testReader []).1,
          (Read decimalLib [("COUNTER", "1, 42 ,3")] testReader []).2)) ∧
    (∃ xs ys : List (Value (Int × Nat)), xs.length = ([] : List String).length ∧
      ys.length = ["7"].length ∧
      Read decimalLib [("COUNTER", " 9223372036854775808,7")] testReader
          ([] ++ counterSlot :: []) =
        ((Read decimalLib [("COUNTER", " 9223372036854775808,7")] testReader []).1 ++
          { counterSlot with value := (Value.slice (xs ++
              Value.int (if -(2 : Int) ^ 63 ≤ 9223372036854775808 ∧
                (9223372036854775808 : Int) ≤ 2 ^ 63 - 1 then 9223372036854775808 else 0) ::
                ys)) } ::
            (Read decimalLib [("COUNTER", " 9223372036854775808,7")] testReader []).1,
          (Read decimalLib [("COUNTER", " 9223372036854775808,7")] testReader []).2)) :=
  ⟨by decide, by decide, by decide,
    ((Read_padded_integer decimalLib [("IDENV", " 42")] testReader [] [] idEnvSlot "42" 42 1 0
      (by decide) (by decide)).1 (by decide) (by decide)).1,
    (Read_padded_integer decimalLib [("COUNTER", "1, 42 ,3")] testReader [] [] counterSlot
      "42" 42 1 1 (by decide) (by decide)).2 (by decide) (by decide) ["1"] ["3"] (by decide)
      (by decide),
    (Read_padded_integer decimalLib [("COUNTER", " 9223372036854775808,7")] testReader [] []
      counterSlot "9223372036854775808" 9223372036854775808 1 0 (by decide) (by decide)).2
      (by decide) (by decide) [] ["7"] (by decide) (by decide)⟩

/-- Counterexample to C18 as stated: `9223372036854775808` is a well-formed base-10 integer text,
but padded with a space as a segment of a `[]int` raw value it does not parse at 64 bits and its
slot holds 0. -/
theorem padded_segment_out_of_range :
    intOfText "9223372036854775808" = some 9223372036854775808 ∧
    ParseInt "9223372036854775808" 10 GoType.int.Bits =
      .error (rangeError "ParseInt" "9223372036854775808") ∧
    Read decimalLib [("COUNTER", " 9223372036854775808,7")] testReader [counterSlot] =
      ([{ counterSlot with value := (Value.slice [.int 0, .int 7]) }], none) := by
  decide

/-- C19. Populated fields do not depend on their old value.  Let a field of a supported type
have a non-blank raw value for which the field step succeeds with the value `v` (for a scalar:
the raw value parses), in a struct whose earlier fields are read without error.  Then `Read`
leaves `v` in the field whatever the field held before, so two structs that differ only in the
old value of the field end in the same state; any field of the same type with the same raw
value, under any environment and tag names, is given `v` as well; and for a list field `v` is
a new list whose length is one plus the number of commas in the raw value, hence at least 1. -/
theorem Read_populated_value_independent {F : Type} (lib : FloatLib F) (os : Env)
    (env : EnvReader) (pre post : List (FieldSlot F)) (slot : FieldSlot F) (v : Value F)
    (hpre : (Read lib os env pre).2 = none)
    (hsupp : isSupportedType slot.field.Typ = true)
    (hnb : isBlank (rawValue os env slot.field) = false)
    (hok : readField lib os env slot = .ok v) :
    (∀ w : Value F, Read lib os env (pre ++ { slot with value := w } :: post) =
      ((Read lib os env pre).1 ++ { slot with value := v } :: (Read lib os env post).1,
        (Read lib os env post).2)) ∧
    (∀ (os2 : Env) (env2 : EnvReader) (slot2 : FieldSlot F),
      slot2.field.Typ = slot.field.Typ →
      rawValue os2 env2 slot2.field = rawValue os env slot.field →
      readField lib os2 env2 slot2 = .ok v) ∧
    (slot.field.Typ.Kind = .Slice →
      ∃ xs, v = .slice xs ∧
        xs.length = 1 + (rawValue os env slot.field).data.count ',' ∧ 1 ≤ xs.length) := by
  refine ⟨?_, ?_, ?_⟩
  · intro w
    have hw : readField lib os env { slot with value := w } = .ok v := by
      rw [readField_of_supported lib os os env env slot { slot with value := w } hsupp hnb rfl
        rfl, hok]
    exact Read_at_ok lib os env pre post { slot with value := w } v hpre hw
  · intro os2 env2 slot2 hT hraw
    rw [readField_of_supported lib os os2 env env2 slot slot2 hsupp hnb hT hraw, hok]
  · intro hK
    rw [readField_slice lib os env slot hK hnb, createSlice_eq] at hok
    have hv : v = .slice ((Split (ReplaceAll (rawValue os env slot.field) ' ' "") ',').map
        (sliceElem lib slot.field.Typ (zeroValue lib slot.field.Typ.Elem))) := by
      injection hok with h
      exact h.symm
    refine ⟨_, hv, ?_, ?_⟩
    · rw [List.length_map, Split_length]
    · rw [List.length_map, Split_length]
      omega

/-- Instance of C19: the field `Hobbies` ends as the three hobbies of its default whether it
was nil or held `["chess"]` before. -/
theorem Read_populated_value_independent_witness :
    Read decimalLib [] testReader
        ([] ++ { hobbiesSlot with value := (Value.slice [.string "chess"]) } :: []) =
      ([] ++ { hobbiesSlot with value :=
          (Value.slice [.string "dancing", .string "sleeping", .string "gaming"]) } :: [],
        none) ∧
    Read decimalLib [] testReader ([] ++ hobbiesSlot :: []) =
      ([] ++ { hobbiesSlot with value :=
          (Value.slice [.string "dancing", .string "sleeping", .string "gaming"]) } :: [],
        none) :=
  ⟨(Read_populated_value_independent decimalLib [] testReader [] [] hobbiesSlot
      (.slice [.string "dancing", .string "sleeping", .string "gaming"])
      (by decide) (by decide) (by decide) (by decide)).1 (.slice [.string "chess"]),
    by decide⟩

end Envreader
